import Mathlib

/-!
Verification of the configuration-swap core of KLGame_Launcher.

This file gives a shallow embedding of `src/core/config_swapper.py`
(`ConfigSwapper.apply`, `ConfigSwapper.restore`, `_safe_mkdir`, the
`BackupEntry` / `SwapSession` data model) and of
`src/core/launch_pipeline.py` (`LaunchPipeline.launch_with_session`),
and proves/refutes the frozen claims about them.

Modelling conventions:
* The filesystem is a map from absolute path strings to optional file
  contents, together with a list of existing directories.  File contents
  are opaque strings ("byte blobs" in the spec's words).
* Fallible OS primitives (`shutil.copy2`, `os.makedirs`, `os.remove`)
  are modelled as `Option`-returning functions; `none` means the call
  raised.  An `Oracle` decides, per path, whether a call fails
  "spontaneously" (permission errors and the like); in addition the
  primitives fail for the inherent reasons they fail in Python
  (source not a regular file, `SameFileError`, the resolved copy target
  being a directory, `os.makedirs` hitting an existing regular file).
  When the destination of `shutil.copy2` is an existing directory, the
  copy does not raise: as in Python it goes into the directory, writing
  `dst/basename(src)` (`copyTarget`).  Copies are atomic: a failed copy
  leaves the destination unchanged.
* `os.path.abspath` is modelled for absolute inputs and for the empty
  string (where Python returns the current working directory); relative
  paths are joined to `cwd` without normalisation.  `os.path.dirname` /
  `os.path.basename` split at the last `/` (the POSIX root corner case
  `dirname "/a" = "/"` is not modelled; it only affects which directory
  `os.makedirs` is pointed at for root-level destinations).
* `time.time() * 1000` is passed in as an explicit natural number `now`;
  Python stores `str(int(...))`, we keep the integer in `SwapSession`
  and render it with `Nat.repr` whenever a path is built, which is the
  same injective rendering.
* `shutil.rmtree(dir, ignore_errors=True)` is modelled as complete
  removal of the directory and everything strictly below it.
* An uncaught exception escaping `ConfigSwapper.apply` is modelled by
  the whole function returning `none`.
-/

namespace KLG

/-- Model of the filesystem: contents of regular files by absolute path,
plus the list of directories that exist. -/
structure Fs where
  files : String → Option String
  dirs : List String

/-- Whether `p` is a regular file (has contents). -/
def Fs.isFile (fs : Fs) (p : String) : Bool := (fs.files p).isSome

/-- Whether `p` is a directory. -/
def Fs.isDir (fs : Fs) (p : String) : Bool := fs.dirs.contains p

/-- Model of `os.path.exists`: true for files and directories. -/
def Fs.pexists (fs : Fs) (p : String) : Bool := fs.isFile p || fs.isDir p

/-- Write contents `c` at path `p` (creating or overwriting the file). -/
def Fs.write (fs : Fs) (p c : String) : Fs :=
  { fs with files := fun q => if q = p then some c else fs.files q }

/-- Remove the regular file at `p`. -/
def Fs.removeFile (fs : Fs) (p : String) : Fs :=
  { fs with files := fun q => if q = p then none else fs.files q }

/-- Record directory `p` as existing. -/
def Fs.addDir (fs : Fs) (p : String) : Fs := { fs with dirs := p :: fs.dirs }

/-- Whether path `p` lies strictly inside directory `d`, i.e. `d ++ "/"` is
a prefix of `p`. -/
def underDir (d p : String) : Bool := (d ++ "/").data.isPrefixOf p.data

/-- Model of `shutil.rmtree(d, ignore_errors=True)`: delete every file and
directory strictly under `d`, and `d` itself. -/
def Fs.rmtree (fs : Fs) (d : String) : Fs :=
  { files := fun q => if underDir d q then none else fs.files q,
    dirs := fs.dirs.filter (fun q => !(underDir d q) && q != d) }

/-- Helper for `basename`/`dirname`: on the reversed character list,
split at the first `/`.  Returns (characters after the last `/` of the
original string, reversed; the part before that `/` when there is one,
reversed). -/
def revSplit : List Char → List Char × Option (List Char)
  | [] => ([], none)
  | c :: cs =>
    if c = '/' then ([], some cs)
    else
      let r := revSplit cs
      (c :: r.1, r.2)

/-- Model of `os.path.basename`: everything after the last `/`. -/
def basename (p : String) : String := (revSplit p.data.reverse).1.reverse.asString

/-- Model of `os.path.dirname`: everything before the last `/` (empty when
the path has no `/`). -/
def dirname (p : String) : String :=
  match (revSplit p.data.reverse).2 with
  | some d => d.reverse.asString
  | none => ""

/-- Per-path failure oracle for the OS primitives: `copyFail src dst` makes
that `shutil.copy2` raise (e.g. a permission error), `mkdirFail p` makes
`os.makedirs p` raise, `removeFail p` makes `os.remove p` raise. -/
structure Oracle where
  copyFail : String → String → Bool
  mkdirFail : String → Bool
  removeFail : String → Bool

/-- The oracle under which no OS call fails spontaneously. -/
def allOk : Oracle := ⟨fun _ _ => false, fun _ => false, fun _ => false⟩

/-- The path `shutil.copy2 src dst` actually writes to: when `dst` is an
existing directory, `shutil.copy` redirects the copy into it, writing
`os.path.join(dst, os.path.basename(src))`; otherwise it writes `dst`
itself. -/
def copyTarget (fs : Fs) (src dst : String) : String :=
  if fs.isDir dst then dst ++ "/" ++ basename src else dst

/-- Model of `shutil.copy2 src dst`.  When `dst` is an existing directory
the copy goes into it (to `copyTarget`, i.e. `dst/basename(src)`).  Fails
(returns `none`, i.e. raises) when `src` is not a regular file (missing, or
a directory), when `src` and the resolved target are the same path
(`shutil.SameFileError`), when the resolved target is itself an existing
directory, or when the oracle injects a failure for this call.  Otherwise
the resolved target gets a byte-exact copy of the source's contents. -/
def copy2 (o : Oracle) (fs : Fs) (src dst : String) : Option Fs :=
  match fs.files src with
  | none => none
  | some c =>
    if src = copyTarget fs src dst then none
    else if fs.isDir (copyTarget fs src dst) then none
    else if o.copyFail src dst then none
    else some (fs.write (copyTarget fs src dst) c)

/-- Model of `_safe_mkdir`, i.e. `os.makedirs(p, exist_ok=True)`: succeeds
(doing nothing) if `p` is already a directory, raises if the oracle injects
a failure or if `p` exists as a regular file, otherwise creates the
directory.  (`_safe_mkdir` has no `try/except`: its failures propagate.) -/
def safeMkdir (o : Oracle) (fs : Fs) (p : String) : Option Fs :=
  if o.mkdirFail p then none
  else if fs.isFile p then none
  else if fs.isDir p then some fs
  else some (fs.addDir p)

/-- Model of `os.remove p`: fails when the oracle injects a failure or when
`p` is not a regular file. -/
def osRemove (o : Oracle) (fs : Fs) (p : String) : Option Fs :=
  if o.removeFail p then none
  else if fs.isFile p then some (fs.removeFile p)
  else none

/-- Model of `os.path.abspath`: the empty string maps to the current
working directory (as in Python), absolute paths are returned unchanged,
relative paths are joined to `cwd` (normalisation of `.`/`..` is not
modelled). -/
def abspath (cwd p : String) : String :=
  if p = "" then cwd
  else if p.data.headD ' ' = '/' then p
  else cwd ++ "/" ++ p

/-- One config swap rule (`FileRule` in `core/profile_manager.py`):
copy `src` over `dst` before launch. -/
structure FileRule where
  src : String
  dst : String
  enabled : Bool
  deriving DecidableEq

/-- Record of one acted-upon rule (`BackupEntry` in
`core/config_swapper.py`). -/
structure BackupEntry where
  dst : String
  existed : Bool
  backup_path : Option String
  deriving DecidableEq

/-- Record of one `apply` call (`SwapSession` in `core/config_swapper.py`).
Python stores `session_id = str(int(time.time() * 1000))`; the model keeps
the integer and renders it with `Nat.repr` when paths are built. -/
structure SwapSession where
  session_id : Nat
  backups : List BackupEntry
  deriving DecidableEq

/-- The per-session backup directory `os.path.join(backups_root, sid)`. -/
def sessionDir (root : String) (sid : Nat) : String := root ++ "/" ++ Nat.repr sid

/-- The backup file name `f"{idx}__" + os.path.basename(dst)`. -/
def backupName (idx : Nat) (dst : String) : String :=
  Nat.repr idx ++ "__" ++ basename dst

/-- Full path of the backup copy for rule index `idx` with destination
`dst`, inside session directory `sd`. -/
def backupPath (sd : String) (idx : Nat) (dst : String) : String :=
  sd ++ "/" ++ backupName idx dst

/-- The backup step of `ConfigSwapper.apply` for one rule: if the
destination existed, try to copy it into the session directory; on failure
the entry is recorded with `backup_path = None`. -/
def doBackup (o : Oracle) (sd : String) (idx : Nat) (fs : Fs) (dst : String)
    (existed : Bool) : Fs × Option String :=
  if existed then
    match copy2 o fs dst (backupPath sd idx dst) with
    | some fs2 => (fs2, some (backupPath sd idx dst))
    | none => (fs, none)
  else (fs, none)

/-- The overwrite step of `ConfigSwapper.apply` for one rule: copy the
source over the destination; if that raises and a backup exists, try a
best-effort single-file rollback (errors of which are swallowed too). -/
def doSwap (o : Oracle) (fs : Fs) (src dst : String) (existed : Bool)
    (bp : Option String) : Fs :=
  match copy2 o fs src dst with
  | some fs4 => fs4
  | none =>
    match bp with
    | some b =>
      if existed && fs.pexists b then
        match copy2 o fs b dst with
        | some fs5 => fs5
        | none => fs
      else fs
    | none => fs

/-- One iteration of the rule loop in `ConfigSwapper.apply`.  Returns
`none` when an uncaught exception (from `_safe_mkdir`) propagates;
otherwise the new filesystem and the `BackupEntry` appended for this rule
(`none` when the rule was skipped). -/
def applyRule (o : Oracle) (cwd sd : String) (idx : Nat) (fs : Fs)
    (r : FileRule) : Option (Fs × Option BackupEntry) :=
  if r.enabled = false then some (fs, none)
  else
    let src := abspath cwd r.src
    let dst := abspath cwd r.dst
    if src = "" ∨ dst = "" ∨ fs.pexists src = false then some (fs, none)
    else
      let dstDir := dirname dst
      match (if dstDir ≠ "" then safeMkdir o fs dstDir else some fs) with
      | none => none
      | some fs1 =>
        let existed := fs1.pexists dst
        let bk := doBackup o sd idx fs1 dst existed
        let fs3 := doSwap o bk.1 src dst existed bk.2
        some (fs3, some ⟨dst, existed, bk.2⟩)

/-- The rule loop of `ConfigSwapper.apply` (`for idx, r in
enumerate(rules)`), collecting the appended backup entries in order. -/
def applyRules (o : Oracle) (cwd sd : String) :
    Nat → Fs → List FileRule → Option (Fs × List BackupEntry)
  | _, fs, [] => some (fs, [])
  | idx, fs, r :: rs =>
    match applyRule o cwd sd idx fs r with
    | none => none
    | some (fs1, oe) =>
      match applyRules o cwd sd (idx + 1) fs1 rs with
      | none => none
      | some (fs2, es) =>
        some (fs2, (match oe with | some e => e :: es | none => es))

/-- Model of `ConfigSwapper.apply`: create the session directory, run the
rule loop, return the session.  `none` models an uncaught exception. -/
def ConfigSwapper.apply (o : Oracle) (cwd root : String) (now : Nat)
    (fs : Fs) (rules : List FileRule) : Option (Fs × SwapSession) :=
  let sd := sessionDir root now
  match safeMkdir o fs sd with
  | none => none
  | some fs1 =>
    match applyRules o cwd sd 0 fs1 rules with
    | none => none
    | some (fs2, bs) => some (fs2, ⟨now, bs⟩)

/-- Partial run of `ConfigSwapper.apply` covering only the first `k` rules:
create the session directory, then run the rule loop on `List.take k rules`
(with indices starting at 0, exactly as `apply` does).  The state it
returns is the filesystem just before rule `k` is processed, which is what
"the destination's pre-swap content" of a backup taken by rule `k` refers
to. -/
def applyPrefix (o : Oracle) (cwd root : String) (now : Nat) (fs : Fs)
    (k : Nat) (rules : List FileRule) : Option (Fs × List BackupEntry) :=
  match safeMkdir o fs (sessionDir root now) with
  | none => none
  | some fs1 => applyRules o cwd (sessionDir root now) 0 fs1 (List.take k rules)

/-- One iteration of the entry loop in `ConfigSwapper.restore`; every
per-entry failure is swallowed (`except Exception: pass`). -/
def restoreEntry (o : Oracle) (fs : Fs) (b : BackupEntry) : Fs :=
  if b.existed then
    match b.backup_path with
    | some bp => if fs.pexists bp then (copy2 o fs bp b.dst).getD fs else fs
    | none => fs
  else
    if fs.pexists b.dst then (osRemove o fs b.dst).getD fs else fs

/-- Model of `ConfigSwapper.restore`: process all entries in recorded
order, then delete the session directory.  Total: every failure is
swallowed, mirroring the Python `try/except` blocks, so restore never
raises. -/
def ConfigSwapper.restore (o : Oracle) (root : String) (s : SwapSession)
    (fs : Fs) : Fs :=
  let sd := sessionDir root s.session_id
  let fs1 := s.backups.foldl (restoreEntry o) fs
  if fs1.pexists sd then fs1.rmtree sd else fs1

/-- Result of `LaunchPipeline.launch_with_session`.  `invalidTarget` models
the `RuntimeError` for an empty exe path; `applyRaised` an exception
escaping `apply` (which happens before the `try` block, so no restore
runs); `spawnFailed fs` the spawn-failure path, carrying the filesystem
after the `except` handler ran `restore`; `ok` the success path. -/
inductive LaunchOutcome where
  | invalidTarget : LaunchOutcome
  | applyRaised : LaunchOutcome
  | spawnFailed : Fs → LaunchOutcome
  | ok : Fs → SwapSession → LaunchOutcome

/-- Model of Python `str.strip()`: drop whitespace from both ends. -/
def pyStrip (s : String) : String :=
  ((s.data.dropWhile Char.isWhitespace).reverse.dropWhile Char.isWhitespace).reverse.asString

/-- Model of `LaunchPipeline.launch_with_session`.  `spawnFail` says
whether `subprocess.Popen` raises.  The window-management steps after a
successful spawn are outside the transactional core (spec §1) and are not
modelled. -/
def LaunchPipeline.launch_with_session (o : Oracle) (spawnFail : Bool)
    (cwd root : String) (now : Nat) (fs : Fs) (exePath : String)
    (rules : List FileRule) : LaunchOutcome :=
  if pyStrip exePath = "" then .invalidTarget
  else
    match ConfigSwapper.apply o cwd root now fs rules with
    | none => .applyRaised
    | some (fs1, session) =>
      if spawnFail then .spawnFailed (ConfigSwapper.restore o root session fs1)
      else .ok fs1 session

/-- Decimal value of a digit string; used to show that `Nat.repr` is
injective (so distinct rule indices and session timestamps give distinct
backup names and session directories). -/
def digitsVal (l : List Char) : Nat :=
  l.foldl (fun a c => 10 * a + (c.toNat - 48)) 0

/-- Well-behaved configuration for `ConfigSwapper.apply` / `restore`: the
backup root is a dedicated directory (nothing lives under the fresh session
directory and no rule path points into it), OS failures are injected at
most for the overwrite copies of rules, destination paths are pairwise
distinct and do not collide with directories or with other rules' parent
directories, and no rule copies a path onto itself. -/
structure Clean (o : Oracle) (cwd root : String) (now : Nat) (fs : Fs)
    (rules : List FileRule) : Prop where
  mkdirOk : ∀ p, o.mkdirFail p = false
  removeOk : ∀ p, o.removeFail p = false
  copyOk : ∀ a b, o.copyFail a b = true →
    ∃ r, r ∈ rules ∧ r.enabled = true ∧ a = abspath cwd r.src ∧ b = abspath cwd r.dst
  freshFiles : ∀ p, underDir (sessionDir root now) p = true → fs.files p = none
  freshDirs : ∀ p, underDir (sessionDir root now) p = true → fs.dirs.contains p = false
  sdNoFile : fs.files (sessionDir root now) = none
  dstNoDir : ∀ r ∈ rules, r.enabled = true → fs.dirs.contains (abspath cwd r.dst) = false
  dstNotUnder : ∀ r ∈ rules, r.enabled = true →
    underDir (sessionDir root now) (abspath cwd r.dst) = false
  dstNeSd : ∀ r ∈ rules, r.enabled = true → abspath cwd r.dst ≠ sessionDir root now
  dstDirNoFile : ∀ r ∈ rules, r.enabled = true →
    fs.files (dirname (abspath cwd r.dst)) = none
  dstNotDirname : ∀ r ∈ rules, r.enabled = true → ∀ r' ∈ rules, r'.enabled = true →
    abspath cwd r.dst ≠ dirname (abspath cwd r'.dst)
  srcNoDir : ∀ r ∈ rules, r.enabled = true → fs.dirs.contains (abspath cwd r.src) = false
  srcNotUnder : ∀ r ∈ rules, r.enabled = true →
    underDir (sessionDir root now) (abspath cwd r.src) = false
  srcNeSd : ∀ r ∈ rules, r.enabled = true → abspath cwd r.src ≠ sessionDir root now
  srcNeDst : ∀ r ∈ rules, r.enabled = true → abspath cwd r.src ≠ abspath cwd r.dst
  srcNotDirname : ∀ r ∈ rules, r.enabled = true → ∀ r' ∈ rules, r'.enabled = true →
    abspath cwd r.src ≠ dirname (abspath cwd r'.dst)
  srcNeEmpty : ∀ r ∈ rules, r.enabled = true → abspath cwd r.src ≠ ""
  dstNeEmpty : ∀ r ∈ rules, r.enabled = true → abspath cwd r.dst ≠ ""
  dstDistinct : rules.Pairwise (fun a b => a.enabled = true → b.enabled = true →
    abspath cwd a.dst ≠ abspath cwd b.dst)

/-- The conditions under which no `os.makedirs` call made by
`ConfigSwapper.apply` raises: the oracle injects no makedirs failure, and
neither the session directory nor any destination's parent-directory path
is (or becomes) a regular file — which requires that no enabled
destination aliases a directory (pre-existing, the session directory, or a
parent directory the run itself creates), since `shutil.copy2` on a
directory destination creates a file inside it that a later `os.makedirs`
call could hit.  Copy and remove failures remain unrestricted. -/
structure MkdirSafe (o : Oracle) (cwd root : String) (now : Nat) (fs : Fs)
    (rules : List FileRule) : Prop where
  mkdirOk : ∀ p, o.mkdirFail p = false
  sdNoFile : fs.files (sessionDir root now) = none
  dstDirNoFile : ∀ r ∈ rules, r.enabled = true →
    fs.files (dirname (abspath cwd r.dst)) = none
  dstDirNotDst : ∀ r ∈ rules, r.enabled = true → ∀ r' ∈ rules, r'.enabled = true →
    dirname (abspath cwd r.dst) ≠ abspath cwd r'.dst
  dstDirNotUnder : ∀ r ∈ rules, r.enabled = true →
    underDir (sessionDir root now) (dirname (abspath cwd r.dst)) = false
  dstNoDir : ∀ r ∈ rules, r.enabled = true →
    fs.dirs.contains (abspath cwd r.dst) = false
  dstNeSd : ∀ r ∈ rules, r.enabled = true → abspath cwd r.dst ≠ sessionDir root now
  dstNotDirname : ∀ r ∈ rules, r.enabled = true → ∀ r' ∈ rules, r'.enabled = true →
    abspath cwd r.dst ≠ dirname (abspath cwd r'.dst)

/-- Facts recorded about one `BackupEntry` by a clean apply, relative to the
pre-apply filesystem `fs` and the post-apply filesystem `gfin`: the entry
belongs to an enabled rule, `existed` reflects pre-apply file existence,
`backup_path` is present exactly when the destination existed, and the
backup file lives under the session directory holding the destination's
pre-apply contents. -/
def EntryInv (cwd sd : String) (fs gfin : Fs) (rules : List FileRule)
    (e : BackupEntry) : Prop :=
  (∃ r, r ∈ rules ∧ r.enabled = true ∧ e.dst = abspath cwd r.dst) ∧
  e.existed = (fs.files e.dst).isSome ∧
  (e.existed = false → e.backup_path = none) ∧
  (e.existed = true → ∃ bp, e.backup_path = some bp) ∧
  (∀ bp, e.backup_path = some bp →
    underDir sd bp = true ∧ gfin.files bp = fs.files e.dst)

/-- Conclusions of the main induction over the rule loop of a clean apply,
for the suffix `rs` starting at index `idx` in state `g`, with `done` the
destinations already processed: frame conditions, directory bookkeeping,
and the per-entry facts. -/
structure StepsOut (o : Oracle) (cwd sd : String) (fs : Fs) (rules : List FileRule)
    (idx : Nat) (g : Fs) (rs : List FileRule) (g2 : Fs)
    (es : List BackupEntry) : Prop where
  frameF : ∀ p, underDir sd p = false → (∀ e ∈ es, p ≠ e.dst) → g2.files p = g.files p
  frameB : ∀ p, underDir sd p = true →
    (∀ j d2, idx ≤ j → p ≠ backupPath sd j d2) → g2.files p = g.files p
  dirsMono : ∀ p, g.dirs.contains p = true → g2.dirs.contains p = true
  dirsChar : ∀ p, g2.dirs.contains p = true → g.dirs.contains p = true ∨
    ∃ r, r ∈ rules ∧ r.enabled = true ∧ p = dirname (abspath cwd r.dst)
  entries : ∀ e ∈ es, EntryInv cwd sd fs g2 rules e
  entriesSrc : ∀ e ∈ es, ∃ r, r ∈ rs ∧ r.enabled = true ∧ e.dst = abspath cwd r.dst
  entriesDistinct : es.Pairwise (fun a b => a.dst ≠ b.dst)
  content : ∀ r ∈ rs, r.enabled = true → (fs.files (abspath cwd r.src)).isSome = true →
    (∀ r2 ∈ rules, r2.enabled = true → abspath cwd r.src ≠ abspath cwd r2.dst) →
    o.copyFail (abspath cwd r.src) (abspath cwd r.dst) = false →
    g2.files (abspath cwd r.dst) = fs.files (abspath cwd r.src)
  covered : ∀ r ∈ rs, r.enabled = true → (fs.files (abspath cwd r.src)).isSome = true →
    (∀ r2 ∈ rules, r2.enabled = true → abspath cwd r.src ≠ abspath cwd r2.dst) →
    ∃ e, e ∈ es ∧ e.dst = abspath cwd r.dst

/-- Digest of what a completed clean apply guarantees, used by the
round-trip and restore proofs: session id, frame condition, directory
bookkeeping, per-entry facts, distinctness of recorded destinations, and
the contents written at destinations. -/
structure CleanApplied (o : Oracle) (cwd root : String) (now : Nat) (fs fs2 : Fs)
    (rules : List FileRule) (s : SwapSession) : Prop where
  sid : s.session_id = now
  frameF : ∀ p, underDir (sessionDir root now) p = false →
    (∀ e ∈ s.backups, p ≠ e.dst) → fs2.files p = fs.files p
  dirsChar : ∀ p, fs2.dirs.contains p = true → fs.dirs.contains p = true ∨
    p = sessionDir root now ∨
    ∃ r, r ∈ rules ∧ r.enabled = true ∧ p = dirname (abspath cwd r.dst)
  sdDir : fs2.dirs.contains (sessionDir root now) = true
  entries : ∀ e ∈ s.backups, EntryInv cwd (sessionDir root now) fs fs2 rules e
  entriesDistinct : s.backups.Pairwise (fun a b => a.dst ≠ b.dst)
  content : ∀ r ∈ rules, r.enabled = true →
    (fs.files (abspath cwd r.src)).isSome = true →
    (∀ r2 ∈ rules, r2.enabled = true → abspath cwd r.src ≠ abspath cwd r2.dst) →
    o.copyFail (abspath cwd r.src) (abspath cwd r.dst) = false →
    fs2.files (abspath cwd r.dst) = fs.files (abspath cwd r.src)
  covered : ∀ r ∈ rules, r.enabled = true →
    (fs.files (abspath cwd r.src)).isSome = true →
    (∀ r2 ∈ rules, r2.enabled = true → abspath cwd r.src ≠ abspath cwd r2.dst) →
    ∃ e, e ∈ s.backups ∧ e.dst = abspath cwd r.dst

/-- Concrete scenario used by the witnesses: one enabled rule copying
`/s/a` (contents `"A"`) over `/d/x` (contents `"X"`), working directory
`/h`, backup root `/b`, timestamp 5. -/
def wfs : Fs :=
  ⟨fun p => if p = "/s/a" then some "A" else if p = "/d/x" then some "X" else none,
   ["/h", "/s", "/d"]⟩

/-- The single witness rule. -/
def wrule : FileRule := ⟨"/s/a", "/d/x", true⟩

/-- The witness rule list. -/
def wrules : List FileRule := [wrule]

/-- Fallback value when projecting out of an `Option (Fs × SwapSession)`
that is known to be `some`. -/
def fsDefault : Fs × SwapSession := (⟨fun _ => none, []⟩, ⟨0, []⟩)

/-- Result of the witness apply. -/
def wApplied : Fs × SwapSession :=
  (ConfigSwapper.apply allOk "/h" "/b" 5 wfs wrules).getD fsDefault

/-- Result of the witness restore. -/
def wRestored : Fs := ConfigSwapper.restore allOk "/b" wApplied.2 wApplied.1

/-- Counterexample scenario: two enabled rules with the same destination
`/d/x`, which exists beforehand with contents `"X"`. -/
def dupFs : Fs :=
  ⟨fun p => if p = "/s/a" then some "A" else if p = "/s/b" then some "B"
    else if p = "/d/x" then some "X" else none,
   ["/h", "/s", "/d"]⟩

/-- The duplicate-destination rule list. -/
def dupRules : List FileRule := [⟨"/s/a", "/d/x", true⟩, ⟨"/s/b", "/d/x", true⟩]

/-- Result of the duplicate-destination apply. -/
def dupApplied : Fs × SwapSession :=
  (ConfigSwapper.apply allOk "/h" "/b" 7 dupFs dupRules).getD fsDefault

/-- Result of the duplicate-destination restore. -/
def dupRestored : Fs := ConfigSwapper.restore allOk "/b" dupApplied.2 dupApplied.1

/-- Counterexample scenario for the creation-undo and idempotence claims:
the shared destination `/d/x` does not exist beforehand. -/
def absFs : Fs :=
  ⟨fun p => if p = "/s/a" then some "A" else if p = "/s/b" then some "B" else none,
   ["/h", "/s", "/d"]⟩

/-- Result of the absent-destination duplicate apply. -/
def absApplied : Fs × SwapSession :=
  (ConfigSwapper.apply allOk "/h" "/b" 9 absFs dupRules).getD fsDefault

/-- Result of the first absent-destination restore. -/
def absRestored : Fs := ConfigSwapper.restore allOk "/b" absApplied.2 absApplied.1

/-- Result of restoring the same session a second time. -/
def absRestored2 : Fs := ConfigSwapper.restore allOk "/b" absApplied.2 absRestored

/-- Result of the witness apply on the absent-destination filesystem with
the single witness rule (used for the creation-undo witness). -/
def aApplied : Fs × SwapSession :=
  (ConfigSwapper.apply allOk "/h" "/b" 5 absFs wrules).getD fsDefault

/-- Oracle that makes `os.makedirs "/p"` raise (modelling a permission
error on creating a destination's parent directory). -/
def mkdirFailOracle : Oracle := ⟨fun _ _ => false, fun p => p == "/p", fun _ => false⟩

/-- Oracle under which every `shutil.copy2` raises (e.g. all files
unreadable), while directory creation and removal succeed. -/
def copyFailOracle : Oracle := ⟨fun _ _ => true, fun _ => false, fun _ => false⟩

/-- Counterexample scenario for the frame claim: the destination `/d` of
the single rule is an existing directory, so `shutil.copy2` copies into it,
writing `/d/a`. -/
def dirDstFs : Fs :=
  ⟨fun p => if p = "/s/a" then some "A" else none, ["/h", "/s", "/d"]⟩

/-- The rule whose destination is the existing directory `/d`. -/
def dirDstRule : FileRule := ⟨"/s/a", "/d", true⟩

/-- Projection of the spawn-failure outcome. -/
def LaunchOutcome.spawnFs : LaunchOutcome → Option Fs
  | .spawnFailed f => some f
  | _ => none

/-- Result of restoring the creation-undo witness session. -/
def aRestored : Fs := ConfigSwapper.restore allOk "/b" aApplied.2 aApplied.1

/-!  ### Digit-string lemmas for `Nat.repr`
Backup files are named `f"{idx}__{basename}"` and session directories
`str(ms)`, so distinctness of names reduces to facts about decimal
renderings: every character is a digit, and the rendering is injective. -/

theorem digitChar_isDigit {m : Nat} (h : m < 10) : (Nat.digitChar m).isDigit = true := by
  interval_cases m <;> decide

theorem digitChar_toNat {m : Nat} (h : m < 10) : (Nat.digitChar m).toNat = 48 + m := by
  interval_cases m <;> decide

theorem toDigitsCore_digits :
    ∀ (f n : Nat) (acc : List Char), (∀ c ∈ acc, c.isDigit = true) →
      ∀ c ∈ Nat.toDigitsCore 10 f n acc, c.isDigit = true := by
  intro f
  induction f with
  | zero => intro n acc hacc c hc; simp only [Nat.toDigitsCore] at hc; exact hacc c hc
  | succ f ih =>
    intro n acc hacc c hc
    simp only [Nat.toDigitsCore] at hc
    split at hc
    · rcases List.mem_cons.mp hc with h | h
      · subst h; exact digitChar_isDigit (Nat.mod_lt _ (by norm_num))
      · exact hacc c h
    · refine ih _ _ ?_ c hc
      intro c' hc'
      rcases List.mem_cons.mp hc' with h | h
      · subst h; exact digitChar_isDigit (Nat.mod_lt _ (by norm_num))
      · exact hacc c' h

theorem toDigitsCore_fuel :
    ∀ (n f₁ f₂ : Nat) (acc : List Char), n < f₁ → n < f₂ →
      Nat.toDigitsCore 10 f₁ n acc = Nat.toDigitsCore 10 f₂ n acc := by
  intro n
  induction n using Nat.strong_induction_on with
  | _ n ih =>
    intro f₁ f₂ acc h₁ h₂
    match f₁, f₂ with
    | f₁ + 1, f₂ + 1 =>
      simp only [Nat.toDigitsCore]
      split
      · rfl
      · rename_i hne
        have hn : 0 < n := by
          rcases Nat.eq_zero_or_pos n with h | h
          · subst h; simp at hne
          · exact h
        have hdiv : n / 10 < n := Nat.div_lt_self hn (by norm_num)
        exact ih (n / 10) hdiv f₁ f₂ _ (by omega) (by omega)

theorem toDigitsCore_acc :
    ∀ (n f : Nat) (acc : List Char), n < f →
      Nat.toDigitsCore 10 f n acc = Nat.toDigitsCore 10 f n [] ++ acc := by
  intro n
  induction n using Nat.strong_induction_on with
  | _ n ih =>
    intro f acc hf
    match f with
    | f + 1 =>
      simp only [Nat.toDigitsCore]
      split
      · rfl
      · rename_i hne
        have hn : 0 < n := by
          rcases Nat.eq_zero_or_pos n with h | h
          · subst h; simp at hne
          · exact h
        have hdiv : n / 10 < n := Nat.div_lt_self hn (by norm_num)
        have hfu : n / 10 < f := by omega
        rw [ih (n / 10) hdiv f _ hfu, ih (n / 10) hdiv f [Nat.digitChar (n % 10)] hfu,
          List.append_assoc]
        rfl

theorem digitsVal_append_singleton (l : List Char) (c : Char) :
    (l ++ [c]).foldl (fun a c => 10 * a + (c.toNat - 48)) 0 =
      10 * l.foldl (fun a c => 10 * a + (c.toNat - 48)) 0 + (c.toNat - 48) := by
  rw [List.foldl_append]
  rfl

theorem toDigitsCore_val :
    ∀ (n f : Nat), n < f →
      (Nat.toDigitsCore 10 f n []).foldl (fun a c => 10 * a + (c.toNat - 48)) 0 = n := by
  intro n
  induction n using Nat.strong_induction_on with
  | _ n ih =>
    intro f hf
    match f with
    | f + 1 =>
      simp only [Nat.toDigitsCore]
      split
      · rename_i hz
        have h10 : n % 10 < 10 := Nat.mod_lt _ (by norm_num)
        simp only [List.foldl]
        rw [digitChar_toNat h10]
        omega
      · rename_i hne
        have hn : 0 < n := by
          rcases Nat.eq_zero_or_pos n with h | h
          · subst h; simp at hne
          · exact h
        have hdiv : n / 10 < n := Nat.div_lt_self hn (by norm_num)
        have hfu : n / 10 < f := by omega
        rw [toDigitsCore_acc _ _ _ hfu, digitsVal_append_singleton, ih (n / 10) hdiv f hfu,
          digitChar_toNat (Nat.mod_lt _ (by norm_num))]
        omega

theorem repr_val (n : Nat) :
    (Nat.repr n).data.foldl (fun a c => 10 * a + (c.toNat - 48)) 0 = n := by
  show (Nat.toDigits 10 n).foldl _ 0 = n
  exact toDigitsCore_val n (n + 1) (Nat.lt_succ_self n)

theorem repr_injective {m n : Nat} (h : Nat.repr m = Nat.repr n) : m = n := by
  have hm := repr_val m
  rw [h, repr_val] at hm
  omega

theorem repr_all_digits (n : Nat) : ∀ c ∈ (Nat.repr n).data, c.isDigit = true := by
  show ∀ c ∈ Nat.toDigits 10 n, c.isDigit = true
  exact toDigitsCore_digits (n + 1) n [] (by simp)


/-! ### Path and prefix lemmas -/


theorem underDir_iff {d p : String} :
    underDir d p = true ↔ (d.data ++ ['/']) <+: p.data := by
  unfold underDir
  rw [ List.isPrefixOf_iff_prefix, String.data_append]

theorem underDir_self (d : String) : underDir d d = false := by
  rw [Bool.eq_false_iff]
  intro h
  have h2 := List.IsPrefix.length_le (underDir_iff.mp h)
  simp at h2

theorem underDir_append (d x : String) : underDir d (d ++ "/" ++ x) = true := by
  rw [underDir_iff, String.data_append, String.data_append]
  have hd : "/".data = ['/'] := rfl
  rw [hd]
  exact List.prefix_append _ _

theorem ne_of_underDir {d p : String} (h : underDir d p = true) : p ≠ d := by
  intro he; subst he; rw [underDir_self] at h; exact Bool.noConfusion h

theorem underDir_backupPath (sd : String) (idx : Nat) (dst : String) :
    underDir sd (backupPath sd idx dst) = true := underDir_append sd _

theorem backupPath_ne_sd (sd : String) (idx : Nat) (dst : String) :
    backupPath sd idx dst ≠ sd := ne_of_underDir (underDir_backupPath sd idx dst)

theorem revSplit_some :
    ∀ (l b d : List Char), revSplit l = (b, some d) → l = b ++ '/' :: d := by
  intro l
  induction l with
  | nil => intro b d h; simp [revSplit] at h
  | cons c cs ih =>
    intro b d h
    by_cases hc : c = '/'
    · subst hc
      simp [revSplit] at h
      rw [h.1, h.2]
      rfl
    · simp [revSplit, hc] at h
      rcases h with ⟨h1, h2⟩
      subst h1
      have hcs : cs = (revSplit cs).1 ++ '/' :: d := by
        apply ih
        rw [← h2]
      rw [List.cons_append]
      exact congrArg (c :: ·) hcs

theorem dirname_data (p : String) (hs : (revSplit p.data.reverse).2.isSome) :
    p.data = (dirname p).data ++ '/' :: (basename p).data := by
  rcases ho : (revSplit p.data.reverse).2 with _ | d
  · rw [ho] at hs; exact Bool.noConfusion hs
  · have hl := revSplit_some p.data.reverse (revSplit p.data.reverse).1 d (by rw [← ho])
    have hrev : p.data = d.reverse ++ '/' :: (revSplit p.data.reverse).1.reverse := by
      have h2 := congrArg List.reverse hl
      simpa [List.reverse_append] using h2
    unfold dirname basename
    rw [ho]
    simpa using hrev

theorem underDir_dirname {sd p : String} (h : underDir sd (dirname p) = true) :
    underDir sd p = true := by
  rcases ho : (revSplit p.data.reverse).2 with _ | d
  · have hdn : dirname p = "" := by unfold dirname; rw [ho]
    rw [hdn] at h
    have h2 := List.IsPrefix.length_le (underDir_iff.mp h)
    simp at h2
  · have hd := dirname_data p (by rw [ho]; rfl)
    rw [underDir_iff] at h ⊢
    rw [hd]
    exact h.trans (List.prefix_append _ _)

theorem slashfree_prefix_eq :
    ∀ (a b : List Char), '/' ∉ a → '/' ∉ b → (a ++ ['/']) <+: (b ++ ['/']) → a = b := by
  intro a
  induction a with
  | nil =>
    intro b ha hb hp
    cases b with
    | nil => rfl
    | cons c bs =>
      rcases (List.cons_prefix_cons.mp hp) with ⟨h1, _⟩
      exact absurd (h1 ▸ List.mem_cons_self c bs) hb
  | cons c as ih =>
    intro b ha hb hp
    cases b with
    | nil =>
      have h2 := List.IsPrefix.length_le hp
      simp at h2
    | cons c2 bs =>
      rcases (List.cons_prefix_cons.mp hp) with ⟨h1, h2⟩
      subst h1
      rw [ih bs (fun hm => ha (List.mem_cons_of_mem c hm))
        (fun hm => hb (List.mem_cons_of_mem c hm)) h2]

theorem revSplit_no_slash : ∀ (l : List Char), '/' ∉ (revSplit l).1 := by
  intro l
  induction l with
  | nil => simp [revSplit]
  | cons c cs ih =>
    by_cases hc : c = '/'
    · subst hc
      simp [revSplit]
    · have he : (revSplit (c :: cs)).1 = c :: (revSplit cs).1 := by
        simp [revSplit, hc]
      rw [he]
      intro hm
      rcases List.mem_cons.mp hm with h1 | h1
      · exact hc h1.symm
      · exact ih h1

theorem basename_no_slash (p : String) : '/' ∉ (basename p).data := by
  intro hm
  have hm2 : '/' ∈ (revSplit p.data.reverse).1.reverse := hm
  rw [List.mem_reverse] at hm2
  exact revSplit_no_slash _ hm2

theorem underDir_extend {d p : String} (h : underDir d p = true) (x : String) :
    underDir d (p ++ x) = true := by
  rw [underDir_iff] at h ⊢
  rw [String.data_append]
  exact h.trans (List.prefix_append _ _)

/-- Boundary lemma: a path of the form `q ++ "/" ++ x` with a slash-free
tail `x` lies under `d` only when `q` itself lies under `d` or equals
`d`. -/
theorem underDir_concat_slashfree {d q x : String} (hx : '/' ∉ x.data)
    (h : underDir d (q ++ "/" ++ x) = true) : underDir d q = true ∨ d = q := by
  rw [underDir_iff] at h
  have hdata : (q ++ "/" ++ x).data = (q.data ++ ['/']) ++ x.data := by
    simp [String.data_append]
  rw [hdata] at h
  rcases List.prefix_or_prefix_of_prefix h (List.prefix_append (q.data ++ ['/']) x.data)
    with hp | hp
  · rcases hp with ⟨t, ht⟩
    rcases List.eq_nil_or_concat t with ht0 | ⟨t0, c0, ht0⟩
    · subst ht0
      rw [List.append_nil] at ht
      right
      apply String.ext
      exact List.append_cancel_right ht
    · subst ht0
      rw [List.concat_eq_append] at ht
      left
      rw [underDir_iff]
      have ht2 : ((d.data ++ ['/']) ++ t0) ++ [c0] = q.data ++ ['/'] := by
        simpa [List.append_assoc] using ht
      have hq : (d.data ++ ['/']) ++ t0 = q.data :=
        (List.append_inj' ht2 rfl).1
      exact ⟨t0, hq⟩
  · rcases hp with ⟨t, ht⟩
    rcases List.eq_nil_or_concat t with ht0 | ⟨t0, c0, ht0⟩
    · subst ht0
      rw [List.append_nil] at ht
      right
      apply String.ext
      exact (List.append_cancel_right ht).symm
    · subst ht0
      rw [List.concat_eq_append] at ht
      exfalso
      have ht2 : ((q.data ++ ['/']) ++ t0) ++ [c0] = d.data ++ ['/'] := by
        simpa [List.append_assoc] using ht
      have hc0 : some c0 = some '/' := by
        rw [← List.getLast?_concat ((q.data ++ ['/']) ++ t0), ht2, List.getLast?_concat]
      injection hc0 with hc0
      have hpre : t0 ++ [c0] <+: x.data := by
        have h4 : (q.data ++ ['/']) ++ (t0 ++ [c0]) <+: (q.data ++ ['/']) ++ x.data := by
          have ht3 : (q.data ++ ['/']) ++ (t0 ++ [c0]) = d.data ++ ['/'] := ht
          rw [ht3]
          exact h
        exact (List.prefix_append_right_inj _).mp h4
      have hmem : '/' ∈ x.data := by
        rw [← hc0]
        exact hpre.subset (List.mem_append_right t0 (List.mem_singleton_self c0))
      exact hx hmem

theorem not_underDir_concat {sd q x : String} (hx : '/' ∉ x.data)
    (h1 : underDir sd q = false) (h2 : sd ≠ q) :
    underDir sd (q ++ "/" ++ x) = false := by
  rw [Bool.eq_false_iff]
  intro h
  rcases underDir_concat_slashfree hx h with h3 | h3
  · rw [h1] at h3
    exact Bool.noConfusion h3
  · exact h2 h3

theorem repr_no_slash (n : Nat) : '/' ∉ (Nat.repr n).data := by
  intro hm
  have h := repr_all_digits n '/' hm
  exact Bool.noConfusion h

theorem repr_no_underscore (n : Nat) : '_' ∉ (Nat.repr n).data := by
  intro hm
  have h := repr_all_digits n '_' hm
  exact Bool.noConfusion h

theorem sessionDir_disjoint {root : String} {n₁ n₂ : Nat} (hne : n₁ ≠ n₂) {p : String}
    (h₁ : underDir (sessionDir root n₁) p = true) :
    underDir (sessionDir root n₂) p = false := by
  rw [Bool.eq_false_iff]
  intro h₂
  apply hne
  apply repr_injective
  rw [underDir_iff] at h₁ h₂
  unfold sessionDir at h₁ h₂
  rw [String.data_append, String.data_append] at h₁ h₂
  have hd : "/".data = ['/'] := rfl
  have key : ∀ m : Nat,
      (root.data ++ ['/']) ++ ((Nat.repr m).data ++ ['/']) =
        root.data ++ "/".data ++ (Nat.repr m).data ++ ['/'] := by
    intro m; simp [hd]
  rw [← key n₁] at h₁
  rw [← key n₂] at h₂
  rcases List.prefix_or_prefix_of_prefix h₁ h₂ with hp | hp
  · have := (List.prefix_append_right_inj _).mp hp
    exact String.ext (slashfree_prefix_eq _ _ (repr_no_slash n₁) (repr_no_slash n₂) this)
  · have := (List.prefix_append_right_inj _).mp hp
    exact (String.ext (slashfree_prefix_eq _ _ (repr_no_slash n₂) (repr_no_slash n₁) this)).symm

theorem digits_underscore_split :
    ∀ (a b x y : List Char), '_' ∉ a → '_' ∉ b →
      a ++ '_' :: x = b ++ '_' :: y → a = b ∧ x = y := by
  intro a
  induction a with
  | nil =>
    intro b x y ha hb h
    cases b with
    | nil => simpa using h
    | cons c bs =>
      simp only [List.nil_append, List.cons_append, List.cons.injEq] at h
      exact absurd (h.1 ▸ List.mem_cons_self c bs) hb
  | cons c as ih =>
    intro b x y ha hb h
    cases b with
    | nil =>
      simp only [List.cons_append, List.nil_append, List.cons.injEq] at h
      exact absurd (h.1 ▸ List.mem_cons_self c as) ha
    | cons c2 bs =>
      simp only [List.cons_append, List.cons.injEq] at h
      rcases h with ⟨h1, h2⟩
      subst h1
      rcases ih bs x y (fun hm => ha (List.mem_cons_of_mem c hm))
        (fun hm => hb (List.mem_cons_of_mem c hm)) h2 with ⟨hab, hxy⟩
      exact ⟨by rw [hab], hxy⟩

theorem backupPath_inj_idx {sd : String} {i j : Nat} {d₁ d₂ : String}
    (h : backupPath sd i d₁ = backupPath sd j d₂) : i = j := by
  apply repr_injective
  apply String.ext
  have hd := congrArg String.data h
  unfold backupPath backupName at hd
  simp only [String.data_append, List.append_assoc] at hd
  have hd2 := List.append_cancel_left hd
  have hd3 := List.append_cancel_left hd2
  have hd4 : (Nat.repr i).data ++ '_' :: '_' :: (basename d₁).data =
      (Nat.repr j).data ++ '_' :: '_' :: (basename d₂).data := by
    simpa using hd3
  exact (digits_underscore_split _ _ _ _ (repr_no_underscore i) (repr_no_underscore j) hd4).1


/-! ### Characterisations of the primitive operations -/

theorem Fs.write_files (fs : Fs) (p c q : String) :
    (fs.write p c).files q = if q = p then some c else fs.files q := rfl

theorem Fs.write_dirs (fs : Fs) (p c : String) : (fs.write p c).dirs = fs.dirs := rfl

theorem Fs.removeFile_files (fs : Fs) (p q : String) :
    (fs.removeFile p).files q = if q = p then none else fs.files q := rfl

theorem Fs.removeFile_dirs (fs : Fs) (p : String) : (fs.removeFile p).dirs = fs.dirs := rfl

theorem Fs.addDir_files (fs : Fs) (p : String) : (fs.addDir p).files = fs.files := rfl

theorem copyTarget_not_dir (fs : Fs) (src dst : String) (hdir : fs.isDir dst = false) :
    copyTarget fs src dst = dst := by
  unfold copyTarget
  rw [hdir]
  simp

theorem copyTarget_cases (fs : Fs) (src dst : String) :
    copyTarget fs src dst = dst ∨ copyTarget fs src dst = dst ++ "/" ++ basename src := by
  unfold copyTarget
  split
  · exact Or.inr rfl
  · exact Or.inl rfl

theorem copy2_eq (o : Oracle) (fs : Fs) (src dst c : String) (hc : fs.files src = some c)
    (hne : src ≠ dst) (hdir : fs.isDir dst = false) (hof : o.copyFail src dst = false) :
    copy2 o fs src dst = some (fs.write dst c) := by
  unfold copy2
  rw [copyTarget_not_dir fs src dst hdir, hc]
  simp [hne, hdir, hof]

theorem copy2_fail (o : Oracle) (fs : Fs) (src dst c : String) (hc : fs.files src = some c)
    (hne : src ≠ dst) (hdir : fs.isDir dst = false) (hof : o.copyFail src dst = true) :
    copy2 o fs src dst = none := by
  unfold copy2
  rw [copyTarget_not_dir fs src dst hdir, hc]
  simp [hne, hdir, hof]

theorem copy2_src_none (o : Oracle) (fs : Fs) (src dst : String)
    (h : fs.files src = none) : copy2 o fs src dst = none := by
  unfold copy2
  rw [h]

theorem copy2_some_spec {o : Oracle} {fs fs2 : Fs} {src dst : String}
    (h : copy2 o fs src dst = some fs2) :
    ∃ c, fs.files src = some c ∧ fs2 = fs.write (copyTarget fs src dst) c := by
  unfold copy2 at h
  split at h
  · exact Option.noConfusion h
  · rename_i c heq
    refine ⟨c, heq, ?_⟩
    split at h
    · exact Option.noConfusion h
    · split at h
      · exact Option.noConfusion h
      · split at h
        · exact Option.noConfusion h
        · injection h with h2
          exact h2.symm

theorem copy2_some_spec_nodir {o : Oracle} {fs fs2 : Fs} {src dst : String}
    (hdir : fs.isDir dst = false) (h : copy2 o fs src dst = some fs2) :
    ∃ c, fs.files src = some c ∧ fs2 = fs.write dst c := by
  rcases copy2_some_spec h with ⟨c, hc, hw⟩
  rw [copyTarget_not_dir fs src dst hdir] at hw
  exact ⟨c, hc, hw⟩

theorem copy2_dirs {o : Oracle} {fs fs2 : Fs} {src dst : String}
    (h : copy2 o fs src dst = some fs2) : fs2.dirs = fs.dirs := by
  rcases copy2_some_spec h with ⟨c, _, hw⟩
  rw [hw]
  rfl

/-- A successful `shutil.copy2 src dst` changes no file other than `dst`
itself and — when `dst` is a directory — `dst/basename(src)`. -/
theorem copy2_write_char {o : Oracle} {fs fs2 : Fs} {src dst : String}
    (h : copy2 o fs src dst = some fs2) (p : String) (h1 : p ≠ dst)
    (h2 : p ≠ dst ++ "/" ++ basename src) : fs2.files p = fs.files p := by
  rcases copy2_some_spec h with ⟨c, _, hw⟩
  rw [hw, Fs.write_files]
  rcases copyTarget_cases fs src dst with he | he
  · rw [he, if_neg h1]
  · rw [he, if_neg h2]

theorem copy2_write_char_nodir {o : Oracle} {fs fs2 : Fs} {src dst : String}
    (hdir : fs.isDir dst = false) (h : copy2 o fs src dst = some fs2) (p : String)
    (h1 : p ≠ dst) : fs2.files p = fs.files p := by
  rcases copy2_some_spec h with ⟨c, _, hw⟩
  rw [hw, Fs.write_files, copyTarget_not_dir fs src dst hdir, if_neg h1]

theorem safeMkdir_eq (o : Oracle) (fs : Fs) (p : String) (hmf : o.mkdirFail p = false)
    (hnf : fs.files p = none) :
    safeMkdir o fs p = some (if fs.isDir p then fs else fs.addDir p) := by
  unfold safeMkdir Fs.isFile
  rw [hmf, hnf]
  simp only [Option.isSome_none, Bool.false_eq_true, if_false]
  split <;> rfl

theorem safeMkdir_some_spec {o : Oracle} {fs fs2 : Fs} {p : String}
    (h : safeMkdir o fs p = some fs2) :
    fs2.files = fs.files ∧ (∀ q, fs.dirs.contains q = true → fs2.dirs.contains q = true) ∧
      (∀ q, fs2.dirs.contains q = true → fs.dirs.contains q = true ∨ q = p) := by
  unfold safeMkdir at h
  split at h
  · exact Option.noConfusion h
  · split at h
    · exact Option.noConfusion h
    · split at h
      · cases h
        exact ⟨rfl, fun q hq => hq, fun q hq => Or.inl hq⟩
      · cases h
        refine ⟨rfl, fun q hq => ?_, fun q hq => ?_⟩
        · show (p :: fs.dirs).contains q = true
          simp only [List.contains_cons, Bool.or_eq_true]
          exact Or.inr hq
        · have hq2 : (q == p || fs.dirs.contains q) = true := by
            simpa only [List.contains_cons] using hq
          rcases Bool.or_eq_true_iff.mp hq2 with hq3 | hq3
          · exact Or.inr (by simpa using hq3)
          · exact Or.inl hq3

theorem osRemove_eq (o : Oracle) (fs : Fs) (p : String) (hrf : o.removeFail p = false)
    (hf : fs.isFile p = true) : osRemove o fs p = some (fs.removeFile p) := by
  unfold osRemove
  rw [hrf, hf]
  simp


/-! ### Case analysis of one rule iteration -/

theorem doBackup_not_existed (o : Oracle) (sd : String) (idx : Nat) (fs : Fs) (dst : String) :
    doBackup o sd idx fs dst false = (fs, none) := rfl

theorem doBackup_existed_ok {o : Oracle} {sd : String} {idx : Nat} {fs fs2 : Fs} {dst : String}
    (h : copy2 o fs dst (backupPath sd idx dst) = some fs2) :
    doBackup o sd idx fs dst true = (fs2, some (backupPath sd idx dst)) := by
  unfold doBackup
  rw [h]
  rfl

theorem doBackup_existed_fail {o : Oracle} {sd : String} {idx : Nat} {fs : Fs} {dst : String}
    (h : copy2 o fs dst (backupPath sd idx dst) = none) :
    doBackup o sd idx fs dst true = (fs, none) := by
  unfold doBackup
  rw [h]
  rfl

theorem doSwap_ok {o : Oracle} {fs fs4 : Fs} {src dst : String} {ex : Bool} {bp : Option String}
    (h : copy2 o fs src dst = some fs4) : doSwap o fs src dst ex bp = fs4 := by
  unfold doSwap
  rw [h]

theorem doSwap_fail_revert {o : Oracle} {fs fs5 : Fs} {src dst b : String}
    (h : copy2 o fs src dst = none) (hb : fs.pexists b = true)
    (h2 : copy2 o fs b dst = some fs5) :
    doSwap o fs src dst true (some b) = fs5 := by
  unfold doSwap
  rw [h]
  simp [hb, h2]

theorem doSwap_fail_none {o : Oracle} {fs : Fs} {src dst : String} {ex : Bool}
    (h : copy2 o fs src dst = none) : doSwap o fs src dst ex none = fs := by
  unfold doSwap
  rw [h]


theorem doBackup_dirs (o : Oracle) (sd : String) (idx : Nat) (fs : Fs) (dst : String)
    (ex : Bool) : (doBackup o sd idx fs dst ex).1.dirs = fs.dirs := by
  unfold doBackup
  split
  · rcases hc : copy2 o fs dst (backupPath sd idx dst) with _ | fc
    · rfl
    · exact copy2_dirs hc
  · rfl

theorem doBackup_files_frame (o : Oracle) (sd : String) (idx : Nat) (fs : Fs)
    (dst : String) (ex : Bool) (p : String) (h1 : p ≠ backupPath sd idx dst)
    (h2 : p ≠ backupPath sd idx dst ++ "/" ++ basename dst) :
    (doBackup o sd idx fs dst ex).1.files p = fs.files p := by
  unfold doBackup
  split
  · rcases hc : copy2 o fs dst (backupPath sd idx dst) with _ | fc
    · rfl
    · exact copy2_write_char hc p h1 h2
  · rfl

theorem doBackup_files_frame_nodir (o : Oracle) (sd : String) (idx : Nat) (fs : Fs)
    (dst : String) (ex : Bool) (hdir : fs.isDir (backupPath sd idx dst) = false)
    (p : String) (h1 : p ≠ backupPath sd idx dst) :
    (doBackup o sd idx fs dst ex).1.files p = fs.files p := by
  unfold doBackup
  split
  · rcases hc : copy2 o fs dst (backupPath sd idx dst) with _ | fc
    · rfl
    · exact copy2_write_char_nodir hdir hc p h1
  · rfl

theorem doSwap_dirs (o : Oracle) (fs : Fs) (src dst : String) (ex : Bool)
    (bp : Option String) : (doSwap o fs src dst ex bp).dirs = fs.dirs := by
  unfold doSwap
  rcases hc : copy2 o fs src dst with _ | fs4
  · rcases bp with _ | b
    · rfl
    · dsimp only
      split
      · rcases hc2 : copy2 o fs b dst with _ | fs5
        · rfl
        · exact copy2_dirs hc2
      · rfl
  · exact copy2_dirs hc

/-- The overwrite step writes only at the destination or — when the
destination is an existing directory — inside it. -/
theorem doSwap_files_frame (o : Oracle) (fs : Fs) (src dst : String) (ex : Bool)
    (bp : Option String) (p : String) (h1 : p ≠ dst)
    (h2 : ∀ y : String, p ≠ dst ++ "/" ++ basename y) :
    (doSwap o fs src dst ex bp).files p = fs.files p := by
  unfold doSwap
  rcases hc : copy2 o fs src dst with _ | fs4
  · rcases bp with _ | b
    · rfl
    · dsimp only
      split
      · rcases hc2 : copy2 o fs b dst with _ | fs5
        · rfl
        · exact copy2_write_char hc2 p h1 (h2 b)
      · rfl
  · exact copy2_write_char hc p h1 (h2 src)

theorem doSwap_files_frame_nodir (o : Oracle) (fs : Fs) (src dst : String) (ex : Bool)
    (bp : Option String) (hdir : fs.isDir dst = false) (p : String) (h1 : p ≠ dst) :
    (doSwap o fs src dst ex bp).files p = fs.files p := by
  unfold doSwap
  rcases hc : copy2 o fs src dst with _ | fs4
  · rcases bp with _ | b
    · rfl
    · dsimp only
      split
      · rcases hc2 : copy2 o fs b dst with _ | fs5
        · rfl
        · exact copy2_write_char_nodir hdir hc2 p h1
      · rfl
  · exact copy2_write_char_nodir hdir hc p h1

theorem applyRule_disabled (o : Oracle) (cwd sd : String) (idx : Nat) (fs : Fs) {r : FileRule}
    (h : r.enabled = false) : applyRule o cwd sd idx fs r = some (fs, none) := by
  unfold applyRule
  rw [h]
  simp

theorem applyRule_skip (o : Oracle) (cwd sd : String) (idx : Nat) (fs : Fs) {r : FileRule}
    (hen : r.enabled = true)
    (h : abspath cwd r.src = "" ∨ abspath cwd r.dst = "" ∨
      fs.pexists (abspath cwd r.src) = false) :
    applyRule o cwd sd idx fs r = some (fs, none) := by
  unfold applyRule
  rw [hen]
  simp only [Bool.true_eq_false, if_false]
  rw [if_pos h]

theorem applyRule_mkdir_none (o : Oracle) (cwd sd : String) (idx : Nat) (fs : Fs) {r : FileRule}
    (hen : r.enabled = true)
    (hns : ¬(abspath cwd r.src = "" ∨ abspath cwd r.dst = "" ∨
      fs.pexists (abspath cwd r.src) = false))
    (hmk : (if dirname (abspath cwd r.dst) ≠ "" then
      safeMkdir o fs (dirname (abspath cwd r.dst)) else some fs) = none) :
    applyRule o cwd sd idx fs r = none := by
  unfold applyRule
  rw [hen]
  simp only [Bool.true_eq_false, if_false]
  rw [if_neg hns, hmk]

theorem applyRule_active (o : Oracle) (cwd sd : String) (idx : Nat) (fs : Fs) {r : FileRule}
    (hen : r.enabled = true)
    (hns : ¬(abspath cwd r.src = "" ∨ abspath cwd r.dst = "" ∨
      fs.pexists (abspath cwd r.src) = false))
    {fs1 : Fs}
    (hmk : (if dirname (abspath cwd r.dst) ≠ "" then
      safeMkdir o fs (dirname (abspath cwd r.dst)) else some fs) = some fs1) :
    applyRule o cwd sd idx fs r =
      some (doSwap o (doBackup o sd idx fs1 (abspath cwd r.dst)
              (fs1.pexists (abspath cwd r.dst))).1
              (abspath cwd r.src) (abspath cwd r.dst) (fs1.pexists (abspath cwd r.dst))
              (doBackup o sd idx fs1 (abspath cwd r.dst)
                (fs1.pexists (abspath cwd r.dst))).2,
            some ⟨abspath cwd r.dst, fs1.pexists (abspath cwd r.dst),
              (doBackup o sd idx fs1 (abspath cwd r.dst)
                (fs1.pexists (abspath cwd r.dst))).2⟩) := by
  unfold applyRule
  rw [hen]
  simp only [Bool.true_eq_false, if_false]
  rw [if_neg hns, hmk]


/-! ### Frame lemmas: apply writes only at recorded destinations (or,
for a directory destination, inside it) and under the session
directory -/

theorem applyRule_dirs {o : Oracle} {cwd sd : String} {idx : Nat} {g g1 : Fs}
    {r : FileRule} {oe : Option BackupEntry}
    (hr : applyRule o cwd sd idx g r = some (g1, oe)) :
    (∀ p, g.dirs.contains p = true → g1.dirs.contains p = true) ∧
    (∀ p, g1.dirs.contains p = true → g.dirs.contains p = true ∨
      p = dirname (abspath cwd r.dst)) := by
  rcases Bool.eq_false_or_eq_true r.enabled with hen | hen
  swap
  · rw [applyRule_disabled o cwd sd idx g hen] at hr
    injection hr with hr2
    injection hr2 with hg ho
    subst hg
    exact ⟨fun p hp => hp, fun p hp => Or.inl hp⟩
  · by_cases hsk : abspath cwd r.src = "" ∨ abspath cwd r.dst = "" ∨
      g.pexists (abspath cwd r.src) = false
    · rw [applyRule_skip o cwd sd idx g hen hsk] at hr
      injection hr with hr2
      injection hr2 with hg ho
      subst hg
      exact ⟨fun p hp => hp, fun p hp => Or.inl hp⟩
    · rcases hmk : (if dirname (abspath cwd r.dst) ≠ "" then
        safeMkdir o g (dirname (abspath cwd r.dst)) else some g) with _ | gm
      · rw [applyRule_mkdir_none o cwd sd idx g hen hsk hmk] at hr
        exact Option.noConfusion hr
      · rw [applyRule_active o cwd sd idx g hen hsk hmk] at hr
        injection hr with hr2
        injection hr2 with hg ho
        have hmspec : (∀ q, g.dirs.contains q = true → gm.dirs.contains q = true) ∧
            (∀ q, gm.dirs.contains q = true → g.dirs.contains q = true ∨
              q = dirname (abspath cwd r.dst)) := by
          by_cases hdn : dirname (abspath cwd r.dst) ≠ ""
          · rw [if_pos hdn] at hmk
            rcases safeMkdir_some_spec hmk with ⟨_, h2, h3⟩
            exact ⟨h2, h3⟩
          · rw [if_neg hdn] at hmk
            injection hmk with hmk2
            subst hmk2
            exact ⟨fun q hq => hq, fun q hq => Or.inl hq⟩
        have hd1 : g1.dirs = gm.dirs := by
          rw [← hg, doSwap_dirs, doBackup_dirs]
        constructor
        · intro p hp
          rw [hd1]
          exact hmspec.1 p hp
        · intro p hp
          rw [hd1] at hp
          exact hmspec.2 p hp

/-- Frame for one rule iteration when the rule's destination is not (and
cannot become) a directory: only the destination itself and paths under the
session directory are written. -/
theorem applyRule_frame_nodir {o : Oracle} {cwd sd : String} {idx : Nat} {g g1 : Fs}
    {r : FileRule} {oe : Option BackupEntry}
    (hr : applyRule o cwd sd idx g r = some (g1, oe))
    (hdd : g.dirs.contains (abspath cwd r.dst) = false)
    (hddn : abspath cwd r.dst ≠ dirname (abspath cwd r.dst)) :
    ∀ p, underDir sd p = false → (∀ e, oe = some e → p ≠ e.dst) →
      g1.files p = g.files p := by
  rcases Bool.eq_false_or_eq_true r.enabled with hen | hen
  swap
  · rw [applyRule_disabled o cwd sd idx g hen] at hr
    injection hr with hr2
    injection hr2 with hg ho
    subst hg
    exact fun p _ _ => rfl
  · by_cases hsk : abspath cwd r.src = "" ∨ abspath cwd r.dst = "" ∨
      g.pexists (abspath cwd r.src) = false
    · rw [applyRule_skip o cwd sd idx g hen hsk] at hr
      injection hr with hr2
      injection hr2 with hg ho
      subst hg
      exact fun p _ _ => rfl
    · rcases hmk : (if dirname (abspath cwd r.dst) ≠ "" then
        safeMkdir o g (dirname (abspath cwd r.dst)) else some g) with _ | gm
      · rw [applyRule_mkdir_none o cwd sd idx g hen hsk hmk] at hr
        exact Option.noConfusion hr
      · rw [applyRule_active o cwd sd idx g hen hsk hmk] at hr
        injection hr with hr2
        injection hr2 with hg ho
        have hmspec : gm.files = g.files ∧
            (∀ q, gm.dirs.contains q = true → g.dirs.contains q = true ∨
              q = dirname (abspath cwd r.dst)) := by
          by_cases hdn : dirname (abspath cwd r.dst) ≠ ""
          · rw [if_pos hdn] at hmk
            rcases safeMkdir_some_spec hmk with ⟨h1, _, h3⟩
            exact ⟨h1, h3⟩
          · rw [if_neg hdn] at hmk
            injection hmk with hmk2
            subst hmk2
            exact ⟨rfl, fun q hq => Or.inl hq⟩
        have hgmdir : gm.isDir (abspath cwd r.dst) = false := by
          rw [Bool.eq_false_iff]
          intro h
          rcases hmspec.2 _ h with h2 | h2
          · rw [hdd] at h2
            exact Bool.noConfusion h2
          · exact hddn h2
        intro p hup hpe
        have hpd : p ≠ abspath cwd r.dst :=
          hpe ⟨abspath cwd r.dst, gm.pexists (abspath cwd r.dst),
            (doBackup o sd idx gm (abspath cwd r.dst)
              (gm.pexists (abspath cwd r.dst))).2⟩ ho.symm
        have hpb : p ≠ backupPath sd idx (abspath cwd r.dst) := by
          intro hpe2
          rw [hpe2, underDir_backupPath] at hup
          exact Bool.noConfusion hup
        have hpb2 : p ≠ backupPath sd idx (abspath cwd r.dst) ++ "/" ++
            basename (abspath cwd r.dst) := by
          intro hpe2
          have hu2 : underDir sd (backupPath sd idx (abspath cwd r.dst) ++ "/" ++
              basename (abspath cwd r.dst)) = true :=
            underDir_extend (underDir_extend (underDir_backupPath sd idx _) "/") _
          rw [hpe2, hu2] at hup
          exact Bool.noConfusion hup
        have hgbdir : (doBackup o sd idx gm (abspath cwd r.dst)
            (gm.pexists (abspath cwd r.dst))).1.isDir (abspath cwd r.dst) = false := by
          show (doBackup o sd idx gm (abspath cwd r.dst)
            (gm.pexists (abspath cwd r.dst))).1.dirs.contains (abspath cwd r.dst) = false
          rw [doBackup_dirs]
          exact hgmdir
        rw [← hg]
        rw [doSwap_files_frame_nodir o _ (abspath cwd r.src) (abspath cwd r.dst) _ _
          hgbdir p hpd]
        rw [doBackup_files_frame o sd idx gm (abspath cwd r.dst) _ p hpb hpb2]
        rw [hmspec.1]

theorem applyRules_frame (o : Oracle) (cwd sd : String) :
    ∀ (rs : List FileRule) (idx : Nat) (g g2 : Fs) (es : List BackupEntry),
      applyRules o cwd sd idx g rs = some (g2, es) →
      (∀ r ∈ rs, r.enabled = true → g.dirs.contains (abspath cwd r.dst) = false) →
      (∀ r ∈ rs, r.enabled = true → ∀ r2 ∈ rs, r2.enabled = true →
        abspath cwd r.dst ≠ dirname (abspath cwd r2.dst)) →
      (∀ p, underDir sd p = false → (∀ e ∈ es, p ≠ e.dst) → g2.files p = g.files p) ∧
      (∀ p, g.dirs.contains p = true → g2.dirs.contains p = true) := by
  intro rs
  induction rs with
  | nil =>
    intro idx g g2 es h _ _
    simp only [applyRules] at h
    cases h
    exact ⟨fun p _ _ => rfl, fun p hp => hp⟩
  | cons r rs ih =>
    intro idx g g2 es h hnd hpair
    simp only [applyRules] at h
    rcases hr : applyRule o cwd sd idx g r with _ | ⟨g1, oe⟩
    · rw [hr] at h; exact Option.noConfusion h
    · rw [hr] at h
      dsimp only at h
      rcases hrec : applyRules o cwd sd (idx + 1) g1 rs with _ | ⟨g3, es3⟩
      · rw [hrec] at h; exact Option.noConfusion h
      · rw [hrec] at h
        dsimp only at h
        injection h with h2
        injection h2 with hfs hes
        subst hfs
        have hnd0 : ∀ r2 ∈ rs, r2.enabled = true →
            g.dirs.contains (abspath cwd r2.dst) = false :=
          fun r2 h2 hen2 => hnd r2 (List.mem_cons_of_mem r h2) hen2
        have hpair0 : ∀ r2 ∈ rs, r2.enabled = true → ∀ r3 ∈ rs, r3.enabled = true →
            abspath cwd r2.dst ≠ dirname (abspath cwd r3.dst) :=
          fun r2 h2 hen2 r3 h3 hen3 => hpair r2 (List.mem_cons_of_mem r h2) hen2
            r3 (List.mem_cons_of_mem r h3) hen3
        have key : (∀ p, underDir sd p = false → (∀ e, oe = some e → p ≠ e.dst) →
              g1.files p = g.files p) ∧
            (∀ p, g.dirs.contains p = true → g1.dirs.contains p = true) ∧
            (∀ r2 ∈ rs, r2.enabled = true →
              g1.dirs.contains (abspath cwd r2.dst) = false) := by
          rcases Bool.eq_false_or_eq_true r.enabled with hen | hen
          swap
          · rw [applyRule_disabled o cwd sd idx g hen] at hr
            injection hr with hr2
            injection hr2 with hg ho
            subst hg
            exact ⟨fun p _ _ => rfl, fun p hp => hp, hnd0⟩
          · have hdirchar := applyRule_dirs hr
            refine ⟨applyRule_frame_nodir hr (hnd r (List.mem_cons_self r rs) hen)
              (hpair r (List.mem_cons_self r rs) hen r (List.mem_cons_self r rs) hen),
              hdirchar.1, ?_⟩
            intro r2 h2 hen2
            rcases hv : g1.dirs.contains (abspath cwd r2.dst) with _ | _
            · rfl
            · exfalso
              rcases hdirchar.2 _ hv with h3 | h3
              · rw [hnd0 r2 h2 hen2] at h3
                exact Bool.noConfusion h3
              · exact hpair r2 (List.mem_cons_of_mem r h2) hen2 r
                  (List.mem_cons_self r rs) hen h3
        rcases ih (idx + 1) g1 g3 es3 hrec key.2.2 hpair0 with ⟨ihf, ihd⟩
        constructor
        · intro p hup hpe
          have hrecf : g3.files p = g1.files p := by
            apply ihf p hup
            intro e he
            apply hpe
            rcases oe with _ | e0
            · exact hes ▸ he
            · rw [← hes]
              exact List.mem_cons_of_mem e0 he
          rw [hrecf]
          apply key.1 p hup
          intro e he
          apply hpe
          rcases oe with _ | e0
          · exact Option.noConfusion he
          · injection he with he2
            subst he2
            rw [← hes]
            exact List.mem_cons_self _ _
        · intro p hp
          exact ihd p (key.2.1 p hp)


theorem Fs.rmtree_files (fs : Fs) (d q : String) :
    (fs.rmtree d).files q = if underDir d q then none else fs.files q := rfl

theorem contains_iff_mem {l : List String} {a : String} : l.contains a = true ↔ a ∈ l := by
  rw [List.contains_eq_any_beq]
  simp

theorem Fs.rmtree_dirs_contains (fs : Fs) (d q : String) :
    (fs.rmtree d).dirs.contains q = true ↔
      (fs.dirs.contains q = true ∧ underDir d q = false ∧ q ≠ d) := by
  unfold Fs.rmtree
  simp only [contains_iff_mem, List.mem_filter, Bool.and_eq_true, Bool.not_eq_true',
    bne_iff_ne, ne_eq]

theorem restoreEntry_dirs (o : Oracle) (fs : Fs) (b : BackupEntry) :
    (restoreEntry o fs b).dirs = fs.dirs := by
  unfold restoreEntry
  split
  · rcases b.backup_path with _ | bp
    · rfl
    · dsimp only
      split
      · rcases hc : copy2 o fs bp b.dst with _ | fc
        · rfl
        · exact copy2_dirs hc
      · rfl
  · split
    · rcases hrm : osRemove o fs b.dst with _ | fr
      · rfl
      · unfold osRemove at hrm
        split at hrm
        · exact Option.noConfusion hrm
        · split at hrm
          · injection hrm with hrm2
            subst hrm2
            rfl
          · exact Option.noConfusion hrm
    · rfl

/-- General frame for one restore-loop iteration: the entry may touch its
destination, and — when the destination is an existing directory — the file
`dst/basename(backup_path)` that `shutil.copy2` writes inside it. -/
theorem restoreEntry_frame (o : Oracle) (fs : Fs) (b : BackupEntry) :
    ∀ p, p ≠ b.dst →
      (∀ bp, b.backup_path = some bp → p ≠ b.dst ++ "/" ++ basename bp) →
      (restoreEntry o fs b).files p = fs.files p := by
  intro p hp hpj
  unfold restoreEntry
  split
  · rcases hbp : b.backup_path with _ | bp
    · rfl
    · dsimp only
      split
      · rcases hc : copy2 o fs bp b.dst with _ | fc
        · rfl
        · exact copy2_write_char hc p hp (hpj bp hbp)
      · rfl
  · split
    · rcases hrm : osRemove o fs b.dst with _ | fr
      · rfl
      · unfold osRemove at hrm
        split at hrm
        · exact Option.noConfusion hrm
        · split at hrm
          · injection hrm with hrm2
            subst hrm2
            show (fs.removeFile b.dst).files p = fs.files p
            rw [Fs.removeFile_files, if_neg hp]
          · exact Option.noConfusion hrm
    · rfl

/-- When the entry's destination is not a directory, the iteration touches
only the destination itself. -/
theorem restoreEntry_frame_nodir (o : Oracle) (fs : Fs) (b : BackupEntry)
    (hdd : fs.isDir b.dst = false) :
    ∀ p, p ≠ b.dst → (restoreEntry o fs b).files p = fs.files p := by
  intro p hp
  unfold restoreEntry
  split
  · rcases b.backup_path with _ | bp
    · rfl
    · dsimp only
      split
      · rcases hc : copy2 o fs bp b.dst with _ | fc
        · rfl
        · exact copy2_write_char_nodir hdd hc p hp
      · rfl
  · split
    · rcases hrm : osRemove o fs b.dst with _ | fr
      · rfl
      · unfold osRemove at hrm
        split at hrm
        · exact Option.noConfusion hrm
        · split at hrm
          · injection hrm with hrm2
            subst hrm2
            show (fs.removeFile b.dst).files p = fs.files p
            rw [Fs.removeFile_files, if_neg hp]
          · exact Option.noConfusion hrm
    · rfl

theorem restoreFold_dirs (o : Oracle) :
    ∀ (es : List BackupEntry) (fs : Fs),
      (es.foldl (restoreEntry o) fs).dirs = fs.dirs := by
  intro es
  induction es with
  | nil => intro fs; rfl
  | cons e es ih =>
    intro fs
    show (es.foldl (restoreEntry o) (restoreEntry o fs e)).dirs = fs.dirs
    rw [ih (restoreEntry o fs e), restoreEntry_dirs]

theorem restoreFold_frame (o : Oracle) :
    ∀ (es : List BackupEntry) (fs : Fs) (p : String),
      (∀ e ∈ es, p ≠ e.dst ∧
        ∀ bp, e.backup_path = some bp → p ≠ e.dst ++ "/" ++ basename bp) →
      (es.foldl (restoreEntry o) fs).files p = fs.files p := by
  intro es
  induction es with
  | nil => intro fs p _; rfl
  | cons e es ih =>
    intro fs p hp
    show (es.foldl (restoreEntry o) (restoreEntry o fs e)).files p = fs.files p
    rw [ih (restoreEntry o fs e) p (fun e2 he2 => hp e2 (List.mem_cons_of_mem e he2))]
    exact restoreEntry_frame o fs e p (hp e (List.mem_cons_self e es)).1
      (hp e (List.mem_cons_self e es)).2

theorem restoreFold_frame_nodir (o : Oracle) :
    ∀ (es : List BackupEntry) (fs : Fs),
      (∀ e ∈ es, fs.dirs.contains e.dst = false) →
      ∀ p, (∀ e ∈ es, p ≠ e.dst) →
      (es.foldl (restoreEntry o) fs).files p = fs.files p := by
  intro es
  induction es with
  | nil => intro fs _ p _; rfl
  | cons e es ih =>
    intro fs hdd p hp
    show (es.foldl (restoreEntry o) (restoreEntry o fs e)).files p = fs.files p
    have hdd2 : ∀ e2 ∈ es, (restoreEntry o fs e).dirs.contains e2.dst = false := by
      intro e2 he2
      rw [restoreEntry_dirs]
      exact hdd e2 (List.mem_cons_of_mem e he2)
    rw [ih (restoreEntry o fs e) hdd2 p (fun e2 he2 => hp e2 (List.mem_cons_of_mem e he2))]
    exact restoreEntry_frame_nodir o fs e (hdd e (List.mem_cons_self e es)) p
      (hp e (List.mem_cons_self e es))

theorem restore_frame (o : Oracle) (root : String) (s : SwapSession) (fs : Fs) (p : String)
    (hp : ∀ e ∈ s.backups, p ≠ e.dst ∧
      ∀ bp, e.backup_path = some bp → p ≠ e.dst ++ "/" ++ basename bp)
    (hu : underDir (sessionDir root s.session_id) p = false) :
    (ConfigSwapper.restore o root s fs).files p = fs.files p := by
  unfold ConfigSwapper.restore
  dsimp only
  split
  · rw [Fs.rmtree_files, if_neg]
    · exact restoreFold_frame o s.backups fs p hp
    · rw [hu]
      exact Bool.noConfusion
  · exact restoreFold_frame o s.backups fs p hp


theorem apply_some_spec {o : Oracle} {cwd root : String} {now : Nat} {fs fs2 : Fs}
    {rules : List FileRule} {s : SwapSession}
    (h : ConfigSwapper.apply o cwd root now fs rules = some (fs2, s)) :
    s.session_id = now ∧
    ∃ fs1, safeMkdir o fs (sessionDir root now) = some fs1 ∧
      applyRules o cwd (sessionDir root now) 0 fs1 rules = some (fs2, s.backups) := by
  unfold ConfigSwapper.apply at h
  dsimp only at h
  rcases hmk : safeMkdir o fs (sessionDir root now) with _ | fs1
  · rw [hmk] at h; exact Option.noConfusion h
  · rw [hmk] at h
    dsimp only at h
    rcases hrec : applyRules o cwd (sessionDir root now) 0 fs1 rules with _ | ⟨fs3, bs⟩
    · rw [hrec] at h; exact Option.noConfusion h
    · rw [hrec] at h
      dsimp only at h
      injection h with h2
      injection h2 with hfs hsess
      subst hfs
      subst hsess
      exact ⟨rfl, fs1, rfl, hrec⟩

theorem apply_frame {o : Oracle} {cwd root : String} {now : Nat} {fs fs2 : Fs}
    {rules : List FileRule} {s : SwapSession}
    (h : ConfigSwapper.apply o cwd root now fs rules = some (fs2, s))
    (hnd : ∀ r ∈ rules, r.enabled = true →
      fs.dirs.contains (abspath cwd r.dst) = false ∧
      abspath cwd r.dst ≠ sessionDir root now)
    (hpair : ∀ r ∈ rules, r.enabled = true → ∀ r2 ∈ rules, r2.enabled = true →
      abspath cwd r.dst ≠ dirname (abspath cwd r2.dst))
    (p : String)
    (hu : underDir (sessionDir root now) p = false)
    (hd : ∀ e ∈ s.backups, p ≠ e.dst) : fs2.files p = fs.files p := by
  rcases apply_some_spec h with ⟨hsid, fs1, hmk, hrules⟩
  rcases safeMkdir_some_spec hmk with ⟨hgf, _, hgd2⟩
  have hnd1 : ∀ r ∈ rules, r.enabled = true →
      fs1.dirs.contains (abspath cwd r.dst) = false := by
    intro r hr hen
    rcases hv : fs1.dirs.contains (abspath cwd r.dst) with _ | _
    · rfl
    · exfalso
      rcases hgd2 _ hv with h3 | h3
      · rw [(hnd r hr hen).1] at h3
        exact Bool.noConfusion h3
      · exact (hnd r hr hen).2 h3
  have h1 := (applyRules_frame o cwd (sessionDir root now) rules 0 fs1 fs2 s.backups
    hrules hnd1 hpair).1
  rw [h1 p hu hd, hgf]

/-! ### Under `MkdirSafe`, `apply` completes for arbitrary copy and remove
failures (the amended no-crash property) -/

theorem applyRules_isSome_of_mkdirSafe (o : Oracle) (cwd root : String) (now : Nat)
    (fs : Fs) (rules : List FileRule) (hms : MkdirSafe o cwd root now fs rules) :
    ∀ (rs : List FileRule) (idx : Nat) (g : Fs),
      (∀ r2 ∈ rs, r2 ∈ rules) →
      (∀ p, g.files p ≠ fs.files p →
        underDir (sessionDir root now) p = true ∨
        ∃ r2, r2 ∈ rules ∧ r2.enabled = true ∧ p = abspath cwd r2.dst) →
      (∀ p, g.dirs.contains p = true → fs.dirs.contains p = true ∨
        p = sessionDir root now ∨
        ∃ r2, r2 ∈ rules ∧ r2.enabled = true ∧ p = dirname (abspath cwd r2.dst)) →
      (applyRules o cwd (sessionDir root now) idx g rs).isSome = true := by
  intro rs
  induction rs with
  | nil => intro idx g hsub hinv _; rfl
  | cons r rs ih =>
    intro idx g hsub hinv hdirs
    have hrmem : r ∈ rules := hsub r (List.mem_cons_self r rs)
    have hsub2 : ∀ r2 ∈ rs, r2 ∈ rules := fun r2 h2 => hsub r2 (List.mem_cons_of_mem r h2)
    rcases Bool.eq_false_or_eq_true r.enabled with hen | hen
    swap
    · simp only [applyRules, applyRule_disabled o cwd (sessionDir root now) idx g hen]
      rcases hrec : applyRules o cwd (sessionDir root now) (idx + 1) g rs with _ | v
      · have hnext := ih (idx + 1) g hsub2 hinv hdirs
        rw [hrec] at hnext
        exact Bool.noConfusion hnext
      · rfl
    · by_cases hsk : abspath cwd r.src = "" ∨ abspath cwd r.dst = "" ∨
        g.pexists (abspath cwd r.src) = false
      · simp only [applyRules, applyRule_skip o cwd (sessionDir root now) idx g hen hsk]
        rcases hrec : applyRules o cwd (sessionDir root now) (idx + 1) g rs with _ | v
        · have := ih (idx + 1) g hsub2 hinv hdirs
          rw [hrec] at this
          exact Bool.noConfusion this
        · rfl
      · have hmkeq : ∃ gm, (if dirname (abspath cwd r.dst) ≠ "" then
            safeMkdir o g (dirname (abspath cwd r.dst)) else some g) = some gm := by
          by_cases hdn : dirname (abspath cwd r.dst) ≠ ""
          · rw [if_pos hdn]
            have hnone : g.files (dirname (abspath cwd r.dst)) = none := by
              by_cases heq : g.files (dirname (abspath cwd r.dst)) =
                  fs.files (dirname (abspath cwd r.dst))
              · rw [heq]
                exact hms.dstDirNoFile r hrmem hen
              · rcases hinv _ heq with hun | ⟨r2, hr2, hen2, hp⟩
                · exact absurd hun (by rw [hms.dstDirNotUnder r hrmem hen]; exact Bool.noConfusion)
                · exact absurd hp (hms.dstDirNotDst r hrmem hen r2 hr2 hen2)
            exact ⟨_, safeMkdir_eq o g _ (hms.mkdirOk _) hnone⟩
          · rw [if_neg hdn]
            exact ⟨g, rfl⟩
        rcases hmkeq with ⟨gm, hmkeq⟩
        have hr := applyRule_active o cwd (sessionDir root now) idx g hen hsk hmkeq
        simp only [applyRules, hr]
        have hdd : g.dirs.contains (abspath cwd r.dst) = false := by
          rcases hv : g.dirs.contains (abspath cwd r.dst) with _ | _
          · rfl
          · exfalso
            rcases hdirs _ hv with h3 | h3 | ⟨r2, hr2, hen2, h3⟩
            · rw [hms.dstNoDir r hrmem hen] at h3
              exact Bool.noConfusion h3
            · exact (hms.dstNeSd r hrmem hen) h3
            · exact (hms.dstNotDirname r hrmem hen r2 hr2 hen2) h3
        have hframe := applyRule_frame_nodir hr hdd
          (hms.dstNotDirname r hrmem hen r hrmem hen)
        have hdirchar := applyRule_dirs hr
        set g3 := doSwap o (doBackup o (sessionDir root now) idx gm (abspath cwd r.dst)
            (gm.pexists (abspath cwd r.dst))).1 (abspath cwd r.src) (abspath cwd r.dst)
            (gm.pexists (abspath cwd r.dst)) (doBackup o (sessionDir root now) idx gm
            (abspath cwd r.dst) (gm.pexists (abspath cwd r.dst))).2 with hg3
        have hinv3 : ∀ p, g3.files p ≠ fs.files p →
            underDir (sessionDir root now) p = true ∨
            ∃ r2, r2 ∈ rules ∧ r2.enabled = true ∧ p = abspath cwd r2.dst := by
          intro p hp
          by_cases hun : underDir (sessionDir root now) p = true
          · exact Or.inl hun
          · by_cases hpd : p = abspath cwd r.dst
            · exact Or.inr ⟨r, hrmem, hen, hpd⟩
            · have hfr := hframe p (Bool.eq_false_iff.mpr hun) (fun e he => by
                injection he with he2
                rw [← he2]
                exact hpd)
              rw [hfr] at hp
              exact hinv p hp
        have hdirs3 : ∀ p, g3.dirs.contains p = true → fs.dirs.contains p = true ∨
            p = sessionDir root now ∨
            ∃ r2, r2 ∈ rules ∧ r2.enabled = true ∧ p = dirname (abspath cwd r2.dst) := by
          intro p hp
          rcases hdirchar.2 p hp with h2 | h2
          · exact hdirs p h2
          · exact Or.inr (Or.inr ⟨r, hrmem, hen, h2⟩)
        have hnext := ih (idx + 1) g3 hsub2 hinv3 hdirs3
        rcases hrec : applyRules o cwd (sessionDir root now) (idx + 1) g3 rs with _ | v
        · rw [hrec] at hnext
          exact Bool.noConfusion hnext
        · rfl


theorem apply_isSome_of_mkdirSafe {o : Oracle} {cwd root : String} {now : Nat} {fs : Fs}
    {rules : List FileRule} (hms : MkdirSafe o cwd root now fs rules) :
    (ConfigSwapper.apply o cwd root now fs rules).isSome = true := by
  unfold ConfigSwapper.apply
  dsimp only
  rw [safeMkdir_eq o fs _ (hms.mkdirOk _) hms.sdNoFile]
  dsimp only
  set fs1 := if fs.isDir (sessionDir root now) = true then fs
    else fs.addDir (sessionDir root now) with hfs1
  have hfiles : fs1.files = fs.files := by
    rw [hfs1]
    split
    · rfl
    · rfl
  have hdirs1 : ∀ p, fs1.dirs.contains p = true → fs.dirs.contains p = true ∨
      p = sessionDir root now ∨
      ∃ r2, r2 ∈ rules ∧ r2.enabled = true ∧ p = dirname (abspath cwd r2.dst) := by
    intro p hp
    rw [hfs1] at hp
    split at hp
    · exact Or.inl hp
    · have hp2 : (p == sessionDir root now || fs.dirs.contains p) = true := by
        simpa only [Fs.addDir, List.contains_cons] using hp
      rcases Bool.or_eq_true_iff.mp hp2 with h3 | h3
      · exact Or.inr (Or.inl (by simpa using h3))
      · exact Or.inl h3
  have h := applyRules_isSome_of_mkdirSafe o cwd root now fs rules hms rules 0 fs1
    (fun r2 h2 => h2) (fun p hp => absurd (congrFun hfiles p) hp) hdirs1
  rcases hrec : applyRules o cwd (sessionDir root now) 0 fs1 rules with _ | v
  · rw [hrec] at h
    exact Bool.noConfusion h
  · rfl


/-! ### The clean-apply induction -/

theorem Clean.toMkdirSafe {o : Oracle} {cwd root : String} {now : Nat} {fs : Fs}
    {rules : List FileRule} (hc : Clean o cwd root now fs rules) :
    MkdirSafe o cwd root now fs rules := by
  refine ⟨hc.mkdirOk, hc.sdNoFile, hc.dstDirNoFile, ?_, ?_,
    hc.dstNoDir, hc.dstNeSd, hc.dstNotDirname⟩
  · intro r hr hen r2 hr2 hen2
    exact (hc.dstNotDirname r2 hr2 hen2 r hr hen).symm
  · intro r hr hen
    rw [Bool.eq_false_iff]
    intro h
    have h2 := underDir_dirname h
    rw [hc.dstNotUnder r hr hen] at h2
    exact Bool.noConfusion h2

theorem not_underDir_dirname {sd p : String} (h : underDir sd p = false) :
    underDir sd (dirname p) = false := by
  rw [Bool.eq_false_iff]
  intro h2
  rw [underDir_dirname h2] at h
  exact Bool.noConfusion h


theorem applyRule_clean_step
    {o : Oracle} {cwd root : String} {now : Nat} {fs : Fs} {rules : List FileRule}
    (hc : Clean o cwd root now fs rules)
    {r : FileRule} (hrmem : r ∈ rules) (hen : r.enabled = true)
    {idx : Nat} {g : Fs} {done : List String}
    (hdone : ∀ d2 ∈ done, ∃ r2, r2 ∈ rules ∧ r2.enabled = true ∧ d2 = abspath cwd r2.dst)
    (hdnotdone : abspath cwd r.dst ∉ done)
    (hG1 : ∀ p, underDir (sessionDir root now) p = false → p ∉ done → g.files p = fs.files p)
    (hG3 : ∀ p, g.dirs.contains p = true → fs.dirs.contains p = true ∨
      p = sessionDir root now ∨
      ∃ r2, r2 ∈ rules ∧ r2.enabled = true ∧ p = dirname (abspath cwd r2.dst))
    (hne : ¬(abspath cwd r.src = "" ∨ abspath cwd r.dst = "" ∨
      g.pexists (abspath cwd r.src) = false)) :
    ∃ g1, applyRule o cwd (sessionDir root now) idx g r =
      some (g1, some ⟨abspath cwd r.dst, (fs.files (abspath cwd r.dst)).isSome,
        if (fs.files (abspath cwd r.dst)).isSome then
          some (backupPath (sessionDir root now) idx (abspath cwd r.dst)) else none⟩) ∧
      (∀ p, p ≠ abspath cwd r.dst →
        p ≠ backupPath (sessionDir root now) idx (abspath cwd r.dst) →
        g1.files p = g.files p) ∧
      ((fs.files (abspath cwd r.dst)).isSome = true →
        g1.files (backupPath (sessionDir root now) idx (abspath cwd r.dst)) =
          fs.files (abspath cwd r.dst)) ∧
      (o.copyFail (abspath cwd r.src) (abspath cwd r.dst) = false →
        g1.files (abspath cwd r.dst) = g.files (abspath cwd r.src)) ∧
      (o.copyFail (abspath cwd r.src) (abspath cwd r.dst) = true →
        g1.files (abspath cwd r.dst) = fs.files (abspath cwd r.dst)) ∧
      (∀ p, g.dirs.contains p = true → g1.dirs.contains p = true) ∧
      (∀ p, g1.dirs.contains p = true → g.dirs.contains p = true ∨
        p = dirname (abspath cwd r.dst)) := by
  -- abbreviations
  have hsd0 : underDir (sessionDir root now) (abspath cwd r.dst) = false :=
    hc.dstNotUnder r hrmem hen
  have hsrc0 : underDir (sessionDir root now) (abspath cwd r.src) = false :=
    hc.srcNotUnder r hrmem hen
  have hbpu : underDir (sessionDir root now)
      (backupPath (sessionDir root now) idx (abspath cwd r.dst)) = true :=
    underDir_backupPath _ _ _
  have hdbp : abspath cwd r.dst ≠
      backupPath (sessionDir root now) idx (abspath cwd r.dst) := by
    intro h
    rw [h, hbpu] at hsd0
    exact Bool.noConfusion hsd0
  have hsbp : abspath cwd r.src ≠
      backupPath (sessionDir root now) idx (abspath cwd r.dst) := by
    intro h
    rw [h, hbpu] at hsrc0
    exact Bool.noConfusion hsrc0
  -- the makedirs step succeeds and only (possibly) adds `dirname dst`
  have hmkex : ∃ gm, (if dirname (abspath cwd r.dst) ≠ "" then
      safeMkdir o g (dirname (abspath cwd r.dst)) else some g) = some gm ∧
      gm.files = g.files ∧
      (∀ p, g.dirs.contains p = true → gm.dirs.contains p = true) ∧
      (∀ p, gm.dirs.contains p = true → g.dirs.contains p = true ∨
        p = dirname (abspath cwd r.dst)) := by
    by_cases hdn : dirname (abspath cwd r.dst) ≠ ""
    · rw [if_pos hdn]
      have hnu : underDir (sessionDir root now) (dirname (abspath cwd r.dst)) = false :=
        not_underDir_dirname hsd0
      have hnd : dirname (abspath cwd r.dst) ∉ done := by
        intro hmem
        rcases hdone _ hmem with ⟨r2, hr2, hen2, heq⟩
        exact (hc.dstNotDirname r2 hr2 hen2 r hrmem hen) heq.symm
      have hnone : g.files (dirname (abspath cwd r.dst)) = none := by
        rw [hG1 _ hnu hnd]
        exact hc.dstDirNoFile r hrmem hen
      refine ⟨_, safeMkdir_eq o g _ (hc.mkdirOk _) hnone, ?_, ?_, ?_⟩
      · split
        · rfl
        · rfl
      · intro p hp
        split
        · exact hp
        · show (_ :: g.dirs).contains p = true
          simp only [List.contains_cons, Bool.or_eq_true]
          exact Or.inr hp
      · intro p hp
        rcases hdi : g.isDir (dirname (abspath cwd r.dst)) with _ | _
        · rw [hdi] at hp
          simp only [Bool.false_eq_true, if_false] at hp
          have hp2 : (p == dirname (abspath cwd r.dst) || g.dirs.contains p) = true := by
            simpa only [Fs.addDir, List.contains_cons] using hp
          rcases Bool.or_eq_true_iff.mp hp2 with h3 | h3
          · exact Or.inr (by simpa using h3)
          · exact Or.inl h3
        · rw [hdi] at hp
          simp only [if_true] at hp
          exact Or.inl hp
    · rw [if_neg hdn]
      exact ⟨g, rfl, rfl, fun p hp => hp, fun p hp => Or.inl hp⟩
  rcases hmkex with ⟨gm, hmkeq, hgmf, hgmd1, hgmd2⟩
  -- destination is never a directory in any of the intermediate states
  have hdnotdir : ∀ h2 : Fs, (∀ p, h2.dirs.contains p = true →
      g.dirs.contains p = true ∨ p = dirname (abspath cwd r.dst)) →
      h2.isDir (abspath cwd r.dst) = false := by
    intro h2 hchar
    rw [Bool.eq_false_iff]
    intro hdir
    rcases hchar _ hdir with hdir2 | hdir2
    · rcases hG3 _ hdir2 with h3 | h3 | ⟨r2, hr2, hen2, h3⟩
      · rw [hc.dstNoDir r hrmem hen] at h3
        exact Bool.noConfusion h3
      · exact (hc.dstNeSd r hrmem hen) h3
      · exact (hc.dstNotDirname r hrmem hen r2 hr2 hen2) h3
    · exact (hc.dstNotDirname r hrmem hen r hrmem hen) hdir2
  -- `existed` as computed by the code equals pre-apply file existence
  have hgd : g.files (abspath cwd r.dst) = fs.files (abspath cwd r.dst) :=
    hG1 _ hsd0 hdnotdone
  have hex : gm.pexists (abspath cwd r.dst) = (fs.files (abspath cwd r.dst)).isSome := by
    unfold Fs.pexists Fs.isFile
    rw [hgmf, hgd]
    rcases hdd : (fs.files (abspath cwd r.dst)).isSome with _ | _
    · simp only [Bool.false_or]
      show gm.isDir (abspath cwd r.dst) = false
      exact hdnotdir gm hgmd2
    · simp
  -- the backup path is never a directory
  have hbpnotdir : ∀ h2 : Fs, (∀ p, h2.dirs.contains p = true →
      g.dirs.contains p = true ∨ p = dirname (abspath cwd r.dst)) →
      h2.isDir (backupPath (sessionDir root now) idx (abspath cwd r.dst)) = false := by
    intro h2 hchar
    rw [Bool.eq_false_iff]
    intro hdir
    rcases hchar _ hdir with hdir2 | hdir2
    · rcases hG3 _ hdir2 with h3 | h3 | ⟨r2, hr2, hen2, h3⟩
      · rw [hc.freshDirs _ hbpu] at h3
        exact Bool.noConfusion h3
      · exact (backupPath_ne_sd _ _ _) h3
      · have h4 : underDir (sessionDir root now) (dirname (abspath cwd r2.dst)) = false :=
          not_underDir_dirname (hc.dstNotUnder r2 hr2 hen2)
        rw [← h3, hbpu] at h4
        exact Bool.noConfusion h4
    · have h4 : underDir (sessionDir root now) (dirname (abspath cwd r.dst)) = false :=
        not_underDir_dirname hsd0
      rw [← hdir2, hbpu] at h4
      exact Bool.noConfusion h4
  -- oracle never fails a copy whose source or target is in the session directory
  have hnofail1 : o.copyFail (abspath cwd r.dst)
      (backupPath (sessionDir root now) idx (abspath cwd r.dst)) = false := by
    rw [Bool.eq_false_iff]
    intro hcf
    rcases hc.copyOk _ _ hcf with ⟨r2, hr2, hen2, _, hb⟩
    have h4 := hc.dstNotUnder r2 hr2 hen2
    rw [← hb, hbpu] at h4
    exact Bool.noConfusion h4
  have hnofail2 : o.copyFail (backupPath (sessionDir root now) idx (abspath cwd r.dst))
      (abspath cwd r.dst) = false := by
    rw [Bool.eq_false_iff]
    intro hcf
    rcases hc.copyOk _ _ hcf with ⟨r2, hr2, hen2, ha, _⟩
    have h4 := hc.srcNotUnder r2 hr2 hen2
    rw [← ha, hbpu] at h4
    exact Bool.noConfusion h4
  -- the source file is present in `gm`
  have hsact : g.pexists (abspath cwd r.src) = true := by
    rcases hs : g.pexists (abspath cwd r.src) with _ | _
    · exact absurd (by
        right
        right
        exact hs) hne
    · rfl
  have hsrcdir : g.isDir (abspath cwd r.src) = false := by
    rw [Bool.eq_false_iff]
    intro hdir
    rcases hG3 _ hdir with h3 | h3 | ⟨r2, hr2, hen2, h3⟩
    · rw [hc.srcNoDir r hrmem hen] at h3
      exact Bool.noConfusion h3
    · exact (hc.srcNeSd r hrmem hen) h3
    · exact (hc.srcNotDirname r hrmem hen r2 hr2 hen2) h3
  have hsrcfile : ∃ cs, g.files (abspath cwd r.src) = some cs := by
    unfold Fs.pexists at hsact
    rw [hsrcdir, Bool.or_false] at hsact
    unfold Fs.isFile at hsact
    rcases hsf : g.files (abspath cwd r.src) with _ | cs
    · rw [hsf] at hsact
      exact Bool.noConfusion hsact
    · exact ⟨cs, rfl⟩
  rcases hsrcfile with ⟨cs, hsrcfile⟩
  -- run the backup step
  rcases hexv : (fs.files (abspath cwd r.dst)).isSome with _ | _
  · -- destination did not exist: no backup, swap into fresh dst
    rw [hexv] at hex
    have hbk := doBackup_not_existed o (sessionDir root now) idx gm (abspath cwd r.dst)
    have hr := applyRule_active o cwd (sessionDir root now) idx g hen hne hmkeq
    rw [hex, hbk] at hr
    -- swap step
    rcases hcf : o.copyFail (abspath cwd r.src) (abspath cwd r.dst) with _ | _
    · -- copy succeeds
      have hcopy : copy2 o gm (abspath cwd r.src) (abspath cwd r.dst) =
          some (gm.write (abspath cwd r.dst) cs) := by
        apply copy2_eq
        · rw [hgmf]; exact hsrcfile
        · exact hc.srcNeDst r hrmem hen
        · exact hdnotdir gm hgmd2
        · exact hcf
      rw [doSwap_ok hcopy] at hr
      refine ⟨_, hr, ?_, ?_, ?_, ?_, ?_, ?_⟩
      · intro p hpd _
        show (gm.write (abspath cwd r.dst) cs).files p = g.files p
        rw [Fs.write_files, if_neg hpd, hgmf]
      · intro hcontra
        exact Bool.noConfusion hcontra
      · intro _
        show (gm.write (abspath cwd r.dst) cs).files (abspath cwd r.dst) =
          g.files (abspath cwd r.src)
        rw [Fs.write_files, if_pos rfl, hsrcfile]
      · intro hcontra
        exact Bool.noConfusion hcontra
      · intro p hp
        show gm.dirs.contains p = true
        exact hgmd1 p hp
      · intro p hp
        exact hgmd2 p hp
    · -- copy fails; no backup to revert from, state unchanged
      have hcopy : copy2 o gm (abspath cwd r.src) (abspath cwd r.dst) = none := by
        apply copy2_fail o gm _ _ cs
        · rw [hgmf]
          exact hsrcfile
        · exact hc.srcNeDst r hrmem hen
        · exact hdnotdir gm hgmd2
        · exact hcf
      rw [doSwap_fail_none hcopy] at hr
      refine ⟨_, hr, ?_, ?_, ?_, ?_, ?_, ?_⟩
      · intro p _ _
        rw [hgmf]
      · intro hcontra
        exact Bool.noConfusion hcontra
      · intro hcontra
        exact Bool.noConfusion hcontra
      · intro _
        rw [hgmf, hgd]
      · intro p hp
        exact hgmd1 p hp
      · intro p hp
        exact hgmd2 p hp
  · -- destination existed: backup it, then swap
    rw [hexv] at hex
    have hgmd : ∃ c, gm.files (abspath cwd r.dst) = some c ∧
        fs.files (abspath cwd r.dst) = some c := by
      rw [hgmf, hgd]
      rcases hv : fs.files (abspath cwd r.dst) with _ | c
      · rw [hv] at hexv
        exact Bool.noConfusion hexv
      · exact ⟨c, rfl, rfl⟩
    rcases hgmd with ⟨c, hgmdst, hfsdst⟩
    have hbcopy : copy2 o gm (abspath cwd r.dst)
        (backupPath (sessionDir root now) idx (abspath cwd r.dst)) =
        some (gm.write (backupPath (sessionDir root now) idx (abspath cwd r.dst)) c) := by
      apply copy2_eq
      · exact hgmdst
      · exact hdbp
      · exact hbpnotdir gm hgmd2
      · exact hnofail1
    have hbk := @doBackup_existed_ok o (sessionDir root now) idx gm _ (abspath cwd r.dst)
      hbcopy
    have hr := applyRule_active o cwd (sessionDir root now) idx g hen hne hmkeq
    rw [hex, hbk] at hr
    set gb := gm.write (backupPath (sessionDir root now) idx (abspath cwd r.dst)) c with hgb
    have hgbsrc : gb.files (abspath cwd r.src) = some cs := by
      rw [hgb, Fs.write_files, if_neg hsbp, hgmf]
      exact hsrcfile
    have hgbdst : gb.files (abspath cwd r.dst) = some c := by
      rw [hgb, Fs.write_files, if_neg hdbp]
      exact hgmdst
    have hgbbp : gb.files (backupPath (sessionDir root now) idx (abspath cwd r.dst)) =
        some c := by
      rw [hgb, Fs.write_files, if_pos rfl]
    have hgbdirs : gb.dirs = gm.dirs := by
      rw [hgb]
      rfl
    rcases hcf : o.copyFail (abspath cwd r.src) (abspath cwd r.dst) with _ | _
    · -- overwrite copy succeeds
      have hcopy : copy2 o gb (abspath cwd r.src) (abspath cwd r.dst) =
          some (gb.write (abspath cwd r.dst) cs) := by
        apply copy2_eq
        · exact hgbsrc
        · exact hc.srcNeDst r hrmem hen
        · show gb.dirs.contains (abspath cwd r.dst) = false
          rw [hgbdirs]
          exact hdnotdir gm hgmd2
        · exact hcf
      rw [doSwap_ok hcopy] at hr
      refine ⟨_, hr, ?_, ?_, ?_, ?_, ?_, ?_⟩
      · intro p hpd hpb
        show (gb.write (abspath cwd r.dst) cs).files p = g.files p
        rw [Fs.write_files, if_neg hpd, hgb, Fs.write_files, if_neg hpb, hgmf]
      · intro _
        show (gb.write (abspath cwd r.dst) cs).files
          (backupPath (sessionDir root now) idx (abspath cwd r.dst)) =
          fs.files (abspath cwd r.dst)
        rw [Fs.write_files, if_neg (Ne.symm hdbp), hgbbp, hfsdst]
      · intro _
        show (gb.write (abspath cwd r.dst) cs).files (abspath cwd r.dst) =
          g.files (abspath cwd r.src)
        rw [Fs.write_files, if_pos rfl, hsrcfile]
      · intro hcontra
        exact Bool.noConfusion hcontra
      · intro p hp
        show gb.dirs.contains p = true
        rw [hgbdirs]
        exact hgmd1 p hp
      · intro p hp
        rw [show ((gb.write (abspath cwd r.dst) cs).dirs = gb.dirs) from rfl, hgbdirs] at hp
        exact hgmd2 p hp
    · -- overwrite copy fails: single-file rollback from the backup
      have hcopy : copy2 o gb (abspath cwd r.src) (abspath cwd r.dst) = none := by
        apply copy2_fail o gb _ _ cs hgbsrc (hc.srcNeDst r hrmem hen)
        · show gb.dirs.contains (abspath cwd r.dst) = false
          rw [hgbdirs]
          exact hdnotdir gm hgmd2
        · exact hcf
      have hbexists : gb.pexists
          (backupPath (sessionDir root now) idx (abspath cwd r.dst)) = true := by
        unfold Fs.pexists Fs.isFile
        rw [hgbbp]
        simp
      have hrevert : copy2 o gb (backupPath (sessionDir root now) idx (abspath cwd r.dst))
          (abspath cwd r.dst) = some (gb.write (abspath cwd r.dst) c) := by
        apply copy2_eq
        · exact hgbbp
        · exact Ne.symm hdbp
        · show gb.dirs.contains (abspath cwd r.dst) = false
          rw [hgbdirs]
          exact hdnotdir gm hgmd2
        · exact hnofail2
      rw [doSwap_fail_revert hcopy hbexists hrevert] at hr
      refine ⟨_, hr, ?_, ?_, ?_, ?_, ?_, ?_⟩
      · intro p hpd hpb
        show (gb.write (abspath cwd r.dst) c).files p = g.files p
        rw [Fs.write_files, if_neg hpd, hgb, Fs.write_files, if_neg hpb, hgmf]
      · intro _
        show (gb.write (abspath cwd r.dst) c).files
          (backupPath (sessionDir root now) idx (abspath cwd r.dst)) =
          fs.files (abspath cwd r.dst)
        rw [Fs.write_files, if_neg (Ne.symm hdbp), hgbbp, hfsdst]
      · intro hcontra
        exact Bool.noConfusion hcontra
      · intro _
        show (gb.write (abspath cwd r.dst) c).files (abspath cwd r.dst) =
          fs.files (abspath cwd r.dst)
        rw [Fs.write_files, if_pos rfl, hfsdst]
      · intro p hp
        show gb.dirs.contains p = true
        rw [hgbdirs]
        exact hgmd1 p hp
      · intro p hp
        rw [show ((gb.write (abspath cwd r.dst) c).dirs = gb.dirs) from rfl, hgbdirs] at hp
        exact hgmd2 p hp


theorem applyRules_clean {o : Oracle} {cwd root : String} {now : Nat} {fs : Fs}
    {rules : List FileRule} (hc : Clean o cwd root now fs rules) :
    ∀ (rs : List FileRule) (done : List String) (idx : Nat) (g : Fs),
      (∀ r2 ∈ rs, r2 ∈ rules) →
      rs.Pairwise (fun a b => a.enabled = true → b.enabled = true →
        abspath cwd a.dst ≠ abspath cwd b.dst) →
      (∀ r2 ∈ rs, r2.enabled = true → abspath cwd r2.dst ∉ done) →
      (∀ d2 ∈ done, ∃ r2, r2 ∈ rules ∧ r2.enabled = true ∧ d2 = abspath cwd r2.dst) →
      (∀ p, underDir (sessionDir root now) p = false → p ∉ done → g.files p = fs.files p) →
      (∀ p, g.dirs.contains p = true → fs.dirs.contains p = true ∨
        p = sessionDir root now ∨
        ∃ r2, r2 ∈ rules ∧ r2.enabled = true ∧ p = dirname (abspath cwd r2.dst)) →
      ∃ g2 es, applyRules o cwd (sessionDir root now) idx g rs = some (g2, es) ∧
        StepsOut o cwd (sessionDir root now) fs rules idx g rs g2 es := by
  intro rs
  induction rs with
  | nil =>
    intro done idx g _ _ _ _ _ _
    refine ⟨g, [], rfl, ?_⟩
    exact ⟨fun p _ _ => rfl, fun p _ _ => rfl, fun p hp => hp,
      fun p hp => Or.inl hp, fun e he => absurd he (List.not_mem_nil e),
      fun e he => absurd he (List.not_mem_nil e), List.Pairwise.nil,
      fun r2 hr2 => absurd hr2 (List.not_mem_nil r2),
      fun r2 hr2 => absurd hr2 (List.not_mem_nil r2)⟩
  | cons r rs ih =>
    intro done idx g hsub hpw hnotdone hdone hG1 hG3
    have hrmem := hsub r (List.mem_cons_self r rs)
    have hsub2 : ∀ r2 ∈ rs, r2 ∈ rules := fun r2 h2 => hsub r2 (List.mem_cons_of_mem r h2)
    rcases List.pairwise_cons.mp hpw with ⟨hhead, hpwtail⟩
    have hnotdone2 : ∀ r2 ∈ rs, r2.enabled = true → abspath cwd r2.dst ∉ done :=
      fun r2 h2 hen2 => hnotdone r2 (List.mem_cons_of_mem r h2) hen2
    -- the case of a rule that contributes no entry
    have skipCase : ∀ (hr : applyRule o cwd (sessionDir root now) idx g r = some (g, none)),
        (∀ hen : r.enabled = true, (fs.files (abspath cwd r.src)).isSome = true →
          (∀ r2 ∈ rules, r2.enabled = true → abspath cwd r.src ≠ abspath cwd r2.dst) →
          False) →
        ∃ g2 es, applyRules o cwd (sessionDir root now) idx g (r :: rs) = some (g2, es) ∧
          StepsOut o cwd (sessionDir root now) fs rules idx g (r :: rs) g2 es := by
      intro hr hno
      rcases ih done (idx + 1) g hsub2 hpwtail hnotdone2 hdone hG1 hG3 with
        ⟨g2, es, hrec, so⟩
      refine ⟨g2, es, ?_, ?_⟩
      · simp only [applyRules, hr, hrec]
      · refine ⟨so.frameF, ?_, so.dirsMono, so.dirsChar, so.entries, ?_,
          so.entriesDistinct, ?_, ?_⟩
        · intro p hu hj
          exact so.frameB p hu (fun j d2 hje => hj j d2 (by omega))
        · intro e he
          rcases so.entriesSrc e he with ⟨r2, h2, hen2, heq⟩
          exact ⟨r2, List.mem_cons_of_mem r h2, hen2, heq⟩
        · intro r2 h2 hen2 hsome hnd hcf
          rcases List.mem_cons.mp h2 with h3 | h3
          · subst h3
            exact absurd trivial (fun _ => hno hen2 hsome hnd)
          · exact so.content r2 h3 hen2 hsome hnd hcf
        · intro r2 h2 hen2 hsome hnd
          rcases List.mem_cons.mp h2 with h3 | h3
          · subst h3
            exact absurd trivial (fun _ => hno hen2 hsome hnd)
          · exact so.covered r2 h3 hen2 hsome hnd
    rcases Bool.eq_false_or_eq_true r.enabled with hen | hen
    · -- enabled rule
      by_cases hsk : abspath cwd r.src = "" ∨ abspath cwd r.dst = "" ∨
        g.pexists (abspath cwd r.src) = false
      · -- skipped as invalid
        refine skipCase (applyRule_skip o cwd (sessionDir root now) idx g hen hsk) ?_
        intro _ hsome hnd
        rcases hsk with h1 | h1 | h1
        · exact (hc.srcNeEmpty r hrmem hen) h1
        · exact (hc.dstNeEmpty r hrmem hen) h1
        · have hnd2 : abspath cwd r.src ∉ done := by
            intro hmem
            rcases hdone _ hmem with ⟨r2, h2, hen2, heq⟩
            exact (hnd r2 h2 hen2) heq
          have hgs : g.files (abspath cwd r.src) = fs.files (abspath cwd r.src) :=
            hG1 _ (hc.srcNotUnder r hrmem hen) hnd2
          unfold Fs.pexists Fs.isFile at h1
          rw [Bool.or_eq_false_iff] at h1
          rw [hgs, hsome] at h1
          exact Bool.noConfusion h1.1
      · -- active rule
        rcases applyRule_clean_step hc hrmem hen hdone (hnotdone r (List.mem_cons_self r rs) hen)
          hG1 hG3 hsk with ⟨g1, hr, hS1, hS2, hS3, hS4, hSd1, hSd2⟩
        have hG1s : ∀ p, underDir (sessionDir root now) p = false →
            p ∉ done ++ [abspath cwd r.dst] → g1.files p = fs.files p := by
          intro p hu hnd
          rw [List.mem_append, List.mem_singleton] at hnd
          push_neg at hnd
          have hpb : p ≠ backupPath (sessionDir root now) idx (abspath cwd r.dst) := by
            intro hpe
            rw [hpe, underDir_backupPath] at hu
            exact Bool.noConfusion hu
          rw [hS1 p hnd.2 hpb]
          exact hG1 p hu hnd.1
        have hG3s : ∀ p, g1.dirs.contains p = true → fs.dirs.contains p = true ∨
            p = sessionDir root now ∨
            ∃ r2, r2 ∈ rules ∧ r2.enabled = true ∧ p = dirname (abspath cwd r2.dst) := by
          intro p hp
          rcases hSd2 p hp with h2 | h2
          · exact hG3 p h2
          · exact Or.inr (Or.inr ⟨r, hrmem, hen, h2⟩)
        have hnotdone1 : ∀ r2 ∈ rs, r2.enabled = true →
            abspath cwd r2.dst ∉ done ++ [abspath cwd r.dst] := by
          intro r2 h2 hen2
          rw [List.mem_append, List.mem_singleton]
          push_neg
          exact ⟨hnotdone2 r2 h2 hen2, (hhead r2 h2 hen hen2).symm⟩
        have hdone1 : ∀ d2 ∈ done ++ [abspath cwd r.dst],
            ∃ r2, r2 ∈ rules ∧ r2.enabled = true ∧ d2 = abspath cwd r2.dst := by
          intro d2 h2
          rw [List.mem_append, List.mem_singleton] at h2
          rcases h2 with h2 | h2
          · exact hdone d2 h2
          · exact ⟨r, hrmem, hen, h2⟩
        rcases ih (done ++ [abspath cwd r.dst]) (idx + 1) g1 hsub2 hpwtail hnotdone1 hdone1
          hG1s hG3s with ⟨g2, es2, hrec, so⟩
        have hbppres : g2.files (backupPath (sessionDir root now) idx (abspath cwd r.dst)) =
            g1.files (backupPath (sessionDir root now) idx (abspath cwd r.dst)) := by
          apply so.frameB _ (underDir_backupPath _ _ _)
          intro j d2 hj heq
          have := backupPath_inj_idx heq
          omega
        have hdstpres : (∀ e2 ∈ es2, abspath cwd r.dst ≠ e2.dst) := by
          intro e2 he2
          rcases so.entriesSrc e2 he2 with ⟨r2, h2, hen2, heq⟩
          rw [heq]
          exact hhead r2 h2 hen hen2
        refine ⟨g2, ⟨abspath cwd r.dst, (fs.files (abspath cwd r.dst)).isSome,
          if (fs.files (abspath cwd r.dst)).isSome = true then
            some (backupPath (sessionDir root now) idx (abspath cwd r.dst)) else none⟩ :: es2,
          ?_, ?_⟩
        · simp only [applyRules, hr, hrec]
        · constructor
          · -- frameF
            intro p hu hpe
            have hpd : p ≠ abspath cwd r.dst := hpe _ (List.mem_cons_self _ _)
            have hpb : p ≠ backupPath (sessionDir root now) idx (abspath cwd r.dst) := by
              intro hpe2
              rw [hpe2, underDir_backupPath] at hu
              exact Bool.noConfusion hu
            rw [so.frameF p hu (fun e2 he2 => hpe e2 (List.mem_cons_of_mem _ he2)),
              hS1 p hpd hpb]
          · -- frameB
            intro p hu hj
            have hpd : p ≠ abspath cwd r.dst := by
              intro hpe2
              rw [hpe2, hc.dstNotUnder r hrmem hen] at hu
              exact Bool.noConfusion hu
            rw [so.frameB p hu (fun j d2 hje => hj j d2 (by omega)),
              hS1 p hpd (hj idx _ (le_refl idx))]
          · -- dirsMono
            intro p hp
            exact so.dirsMono p (hSd1 p hp)
          · -- dirsChar
            intro p hp
            rcases so.dirsChar p hp with h2 | h2
            · rcases hSd2 p h2 with h3 | h3
              · exact Or.inl h3
              · exact Or.inr ⟨r, hrmem, hen, h3⟩
            · exact Or.inr h2
          · -- entries
            intro e he
            rcases List.mem_cons.mp he with he2 | he2
            · subst he2
              refine ⟨⟨r, hrmem, hen, rfl⟩, rfl, ?_, ?_, ?_⟩
              · intro hexf
                have hexf2 : (fs.files (abspath cwd r.dst)).isSome = false := hexf
                show (if (fs.files (abspath cwd r.dst)).isSome = true then
                  some (backupPath (sessionDir root now) idx (abspath cwd r.dst))
                  else none) = none
                rw [hexf2]
                simp
              · intro hext
                have hext2 : (fs.files (abspath cwd r.dst)).isSome = true := hext
                show ∃ bp, (if (fs.files (abspath cwd r.dst)).isSome = true then
                  some (backupPath (sessionDir root now) idx (abspath cwd r.dst))
                  else none) = some bp
                rw [hext2]
                exact ⟨backupPath (sessionDir root now) idx (abspath cwd r.dst), by simp⟩
              · intro bp hbp
                have hbp2 : (if (fs.files (abspath cwd r.dst)).isSome = true then
                    some (backupPath (sessionDir root now) idx (abspath cwd r.dst))
                    else none) = some bp := hbp
                rcases hv : (fs.files (abspath cwd r.dst)).isSome with _ | _
                · rw [hv] at hbp2
                  simp only [Bool.false_eq_true, if_false] at hbp2
                  exact Option.noConfusion hbp2
                · rw [hv] at hbp2
                  simp only [if_true] at hbp2
                  injection hbp2 with hbp3
                  subst hbp3
                  refine ⟨underDir_backupPath _ _ _, ?_⟩
                  show g2.files (backupPath (sessionDir root now) idx (abspath cwd r.dst)) =
                    fs.files (abspath cwd r.dst)
                  rw [hbppres]
                  exact hS2 hv
            · exact so.entries e he2
          · -- entriesSrc
            intro e he
            rcases List.mem_cons.mp he with he2 | he2
            · subst he2
              exact ⟨r, List.mem_cons_self _ _, hen, rfl⟩
            · rcases so.entriesSrc e he2 with ⟨r2, h2, hen2, heq⟩
              exact ⟨r2, List.mem_cons_of_mem _ h2, hen2, heq⟩
          · -- entriesDistinct
            rw [List.pairwise_cons]
            exact ⟨fun e2 he2 => hdstpres e2 he2, so.entriesDistinct⟩
          · -- content
            intro r2 h2 hen2 hsome hnd hcf
            rcases List.mem_cons.mp h2 with h3 | h3
            · subst h3
              have hsnd : abspath cwd r2.src ∉ done := by
                intro hmem
                rcases hdone _ hmem with ⟨r3, h3, hen3, heq⟩
                exact (hnd r3 h3 hen3) heq
              rw [so.frameF _ (hc.dstNotUnder r2 hrmem hen2) hdstpres, hS3 hcf,
                hG1 _ (hc.srcNotUnder r2 hrmem hen2) hsnd]
            · exact so.content r2 h3 hen2 hsome hnd hcf
          · -- covered
            intro r2 h2 hen2 hsome hnd
            rcases List.mem_cons.mp h2 with h3 | h3
            · subst h3
              exact ⟨_, List.mem_cons_self _ _, rfl⟩
            · rcases so.covered r2 h3 hen2 hsome hnd with ⟨e, he, heq⟩
              exact ⟨e, List.mem_cons_of_mem _ he, heq⟩
    · -- disabled rule
      refine skipCase (applyRule_disabled o cwd (sessionDir root now) idx g hen) ?_
      intro hen2 _ _
      rw [hen] at hen2
      exact Bool.noConfusion hen2


theorem safeMkdir_some_dir {o : Oracle} {fs fs2 : Fs} {p : String}
    (h : safeMkdir o fs p = some fs2) : fs2.dirs.contains p = true := by
  unfold safeMkdir at h
  split at h
  · exact Option.noConfusion h
  · split at h
    · exact Option.noConfusion h
    · split at h
      · cases h
        assumption
      · cases h
        show (p :: fs.dirs).contains p = true
        simp [List.contains_cons]

theorem apply_clean_spec {o : Oracle} {cwd root : String} {now : Nat} {fs : Fs}
    {rules : List FileRule} (hc : Clean o cwd root now fs rules) :
    ∃ fs2 s, ConfigSwapper.apply o cwd root now fs rules = some (fs2, s) ∧
      CleanApplied o cwd root now fs fs2 rules s := by
  have hsome := apply_isSome_of_mkdirSafe hc.toMkdirSafe
  rcases happ : ConfigSwapper.apply o cwd root now fs rules with _ | v
  · rw [happ] at hsome
    exact Bool.noConfusion hsome
  · rcases v with ⟨fs2, s⟩
    rcases apply_some_spec happ with ⟨hsid, g, hmk, hrules⟩
    rcases safeMkdir_some_spec hmk with ⟨hgf, hgd1, hgd2⟩
    have hG1 : ∀ p, underDir (sessionDir root now) p = false → p ∉ ([] : List String) →
        g.files p = fs.files p := fun p _ _ => congrFun hgf p
    have hG3 : ∀ p, g.dirs.contains p = true → fs.dirs.contains p = true ∨
        p = sessionDir root now ∨
        ∃ r2, r2 ∈ rules ∧ r2.enabled = true ∧ p = dirname (abspath cwd r2.dst) := by
      intro p hp
      rcases hgd2 p hp with h2 | h2
      · exact Or.inl h2
      · exact Or.inr (Or.inl h2)
    rcases applyRules_clean hc rules [] 0 g (fun r2 h2 => h2) hc.dstDistinct
      (fun r2 _ _ => List.not_mem_nil _) (fun d2 h2 => absurd h2 (List.not_mem_nil d2))
      hG1 hG3 with ⟨g2, es, hrec, so⟩
    rw [hrules] at hrec
    injection hrec with hrec2
    injection hrec2 with hfs hes
    refine ⟨fs2, s, rfl, ?_⟩
    subst hfs
    refine ⟨hsid, ?_, ?_, ?_, ?_, ?_, ?_, ?_⟩
    · intro p hu hd
      rw [hes] at hd
      rw [so.frameF p hu hd]
      exact congrFun hgf p
    · intro p hp
      rcases so.dirsChar p hp with h2 | h2
      · exact hG3 p h2
      · exact Or.inr (Or.inr h2)
    · exact so.dirsMono _ (safeMkdir_some_dir hmk)
    · intro e he
      rw [hes] at he
      exact so.entries e he
    · rw [hes]
      exact so.entriesDistinct
    · intro r hr hen hsome2 hnd hcf
      exact so.content r hr hen hsome2 hnd hcf
    · intro r hr hen hsome2 hnd
      rcases so.covered r hr hen hsome2 hnd with ⟨e, he, heq⟩
      rw [← hes] at he
      exact ⟨e, he, heq⟩


/-! ### Restore after a clean apply -/

theorem restoreEntry_clean {o : Oracle} {sd : String} {fs h : Fs} {e : BackupEntry}
    (hremove : ∀ p, o.removeFail p = false)
    (hcopysd : ∀ a b, o.copyFail a b = true → underDir sd a = false)
    (hdu : underDir sd e.dst = false)
    (hdd : h.dirs.contains e.dst = false)
    (hex : e.existed = (fs.files e.dst).isSome)
    (hdeg : e.existed = true → ∃ bp, e.backup_path = some bp)
    (hbp : ∀ bp, e.backup_path = some bp → underDir sd bp = true ∧
      h.files bp = fs.files e.dst) :
    (restoreEntry o h e).files e.dst = fs.files e.dst ∧
    (∀ p, p ≠ e.dst → (restoreEntry o h e).files p = h.files p) ∧
    (restoreEntry o h e).dirs = h.dirs := by
  refine ⟨?_, restoreEntry_frame_nodir o h e hdd, restoreEntry_dirs o h e⟩
  unfold restoreEntry
  rcases hexv : e.existed with _ | _
  · -- did not exist before: delete the destination if present
    simp only [Bool.false_eq_true, if_false]
    have hfs : fs.files e.dst = none := by
      rcases hv : fs.files e.dst with _ | c
      · rfl
      · rw [hexv, hv] at hex
        exact Bool.noConfusion hex
    rw [hfs]
    rcases hpe : h.pexists e.dst with _ | _
    · simp only [Bool.false_eq_true, if_false]
      unfold Fs.pexists Fs.isFile at hpe
      rw [Bool.or_eq_false_iff] at hpe
      rcases hv : h.files e.dst with _ | c
      · rfl
      · rw [hv] at hpe
        exact absurd hpe.1 (by simp)
    · simp only [if_true]
      have hisf : h.isFile e.dst = true := by
        unfold Fs.pexists at hpe
        rcases Bool.or_eq_true_iff.mp hpe with h2 | h2
        · exact h2
        · have h3 : h.dirs.contains e.dst = true := h2
          rw [hdd] at h3
          exact Bool.noConfusion h3
      rw [osRemove_eq o h e.dst (hremove _) hisf]
      show (h.removeFile e.dst).files e.dst = none
      rw [Fs.removeFile_files, if_pos rfl]
  · -- existed: copy the backup over the destination
    simp only [if_true]
    rcases hdeg hexv with ⟨bp, hbpe⟩
    rw [hbpe]
    dsimp only
    rcases hbp bp hbpe with ⟨hbpu, hbpc⟩
    have hcs : ∃ c, fs.files e.dst = some c := by
      rcases hv : fs.files e.dst with _ | c
      · rw [hexv, hv] at hex
        exact Bool.noConfusion hex
      · exact ⟨c, rfl⟩
    rcases hcs with ⟨c, hcs⟩
    have hbpc2 : h.files bp = some c := by
      rw [hbpc, hcs]
    have hpe : h.pexists bp = true := by
      unfold Fs.pexists Fs.isFile
      rw [hbpc2]
      simp
    rw [if_pos hpe]
    have hbpd : bp ≠ e.dst := by
      intro heq
      rw [heq, hdu] at hbpu
      exact Bool.noConfusion hbpu
    have hnof : o.copyFail bp e.dst = false := by
      rcases hv : o.copyFail bp e.dst with _ | _
      · rfl
      · rw [hcopysd bp e.dst hv] at hbpu
        exact Bool.noConfusion hbpu
    rw [copy2_eq o h bp e.dst c hbpc2 hbpd hdd hnof]
    show (h.write e.dst c).files e.dst = fs.files e.dst
    rw [Fs.write_files, if_pos rfl, hcs]

theorem restoreFold_clean {o : Oracle} {sd : String} {fs : Fs}
    (hremove : ∀ p, o.removeFail p = false)
    (hcopysd : ∀ a b, o.copyFail a b = true → underDir sd a = false) :
    ∀ (es : List BackupEntry) (h : Fs),
      es.Pairwise (fun a b => a.dst ≠ b.dst) →
      (∀ e ∈ es, underDir sd e.dst = false ∧ h.dirs.contains e.dst = false ∧
        e.existed = (fs.files e.dst).isSome ∧
        (e.existed = true → ∃ bp, e.backup_path = some bp) ∧
        (∀ bp, e.backup_path = some bp → underDir sd bp = true ∧
          h.files bp = fs.files e.dst)) →
      ∀ e ∈ es, (es.foldl (restoreEntry o) h).files e.dst = fs.files e.dst := by
  intro es
  induction es with
  | nil => intro h _ _ e he; exact absurd he (List.not_mem_nil e)
  | cons e0 es ih =>
    intro h hpw hfacts e he
    rcases List.pairwise_cons.mp hpw with ⟨hhead, hpwtail⟩
    rcases hfacts e0 (List.mem_cons_self e0 es) with ⟨hdu0, hdd0, hex0, hdeg0, hbp0⟩
    have hstep := @restoreEntry_clean o sd fs h e0 hremove hcopysd hdu0 hdd0 hex0 hdeg0 hbp0
    have hfacts2 : ∀ e2 ∈ es, underDir sd e2.dst = false ∧
        (restoreEntry o h e0).dirs.contains e2.dst = false ∧
        e2.existed = (fs.files e2.dst).isSome ∧
        (e2.existed = true → ∃ bp, e2.backup_path = some bp) ∧
        (∀ bp, e2.backup_path = some bp → underDir sd bp = true ∧
          (restoreEntry o h e0).files bp = fs.files e2.dst) := by
      intro e2 he2
      rcases hfacts e2 (List.mem_cons_of_mem e0 he2) with ⟨h1, h2, h3, h4, h5⟩
      refine ⟨h1, ?_, h3, h4, ?_⟩
      · rw [hstep.2.2]
        exact h2
      · intro bp hbpe
        rcases h5 bp hbpe with ⟨hu, hcnt⟩
        refine ⟨hu, ?_⟩
        have hbpd : bp ≠ e0.dst := by
          intro heq
          rw [heq, hdu0] at hu
          exact Bool.noConfusion hu
        rw [hstep.2.1 bp hbpd]
        exact hcnt
    rcases List.mem_cons.mp he with he2 | he2
    · rw [he2]
      show ((es.foldl (restoreEntry o) (restoreEntry o h e0))).files e0.dst = fs.files e0.dst
      rw [restoreFold_frame_nodir o es (restoreEntry o h e0)
        (fun e2 he3 => (hfacts2 e2 he3).2.1) e0.dst
        (fun e2 he3 => (hhead e2 he3 : e0.dst ≠ e2.dst))]
      exact hstep.1
    · exact ih (restoreEntry o h e0) hpwtail hfacts2 e he2


theorem restoreFold_id (o : Oracle) :
    ∀ (es : List BackupEntry) (w : Fs), (∀ e ∈ es, restoreEntry o w e = w) →
      es.foldl (restoreEntry o) w = w := by
  intro es
  induction es with
  | nil => intro w _; rfl
  | cons e0 es ih =>
    intro w hskip
    show es.foldl (restoreEntry o) (restoreEntry o w e0) = w
    rw [hskip e0 (List.mem_cons_self e0 es)]
    exact ih w (fun e2 he2 => hskip e2 (List.mem_cons_of_mem e0 he2))

theorem restore_clean {o : Oracle} {cwd root : String} {now : Nat} {fs fs2 : Fs}
    {rules : List FileRule} {s : SwapSession} (hc : Clean o cwd root now fs rules)
    (ca : CleanApplied o cwd root now fs fs2 rules s) :
    (∀ p, (ConfigSwapper.restore o root s fs2).files p = fs.files p) ∧
    (ConfigSwapper.restore o root s fs2).dirs.contains (sessionDir root now) = false ∧
    ConfigSwapper.restore o root s (ConfigSwapper.restore o root s fs2) =
      ConfigSwapper.restore o root s fs2 := by
  have hcopysd : ∀ a b, o.copyFail a b = true →
      underDir (sessionDir root now) a = false := by
    intro a b hcf
    rcases hc.copyOk a b hcf with ⟨r2, hr2, hen2, ha, _⟩
    rw [ha]
    exact hc.srcNotUnder r2 hr2 hen2
  have hdstu : ∀ e ∈ s.backups, underDir (sessionDir root now) e.dst = false := by
    intro e he
    rcases (ca.entries e he).1 with ⟨r2, hr2, hen2, hdst⟩
    rw [hdst]
    exact hc.dstNotUnder r2 hr2 hen2
  have hdstd : ∀ e ∈ s.backups, fs2.dirs.contains e.dst = false := by
    intro e he
    rcases (ca.entries e he).1 with ⟨r2, hr2, hen2, hdst⟩
    rcases hv : fs2.dirs.contains e.dst with _ | _
    · rfl
    · exfalso
      rcases ca.dirsChar _ hv with h2 | h2 | ⟨r3, hr3, hen3, h2⟩
      · rw [hdst, hc.dstNoDir r2 hr2 hen2] at h2
        exact Bool.noConfusion h2
      · rw [hdst] at h2
        exact (hc.dstNeSd r2 hr2 hen2) h2
      · rw [hdst] at h2
        exact (hc.dstNotDirname r2 hr2 hen2 r3 hr3 hen3) h2
  have hfacts : ∀ e ∈ s.backups, underDir (sessionDir root now) e.dst = false ∧
      fs2.dirs.contains e.dst = false ∧
      e.existed = (fs.files e.dst).isSome ∧
      (e.existed = true → ∃ bp, e.backup_path = some bp) ∧
      (∀ bp, e.backup_path = some bp → underDir (sessionDir root now) bp = true ∧
        fs2.files bp = fs.files e.dst) := by
    intro e he
    rcases ca.entries e he with ⟨_, hex, _, hdeg, hbp⟩
    exact ⟨hdstu e he, hdstd e he, hex, hdeg, hbp⟩
  have hfolddst := @restoreFold_clean o (sessionDir root now) fs hc.removeOk
    hcopysd s.backups fs2 ca.entriesDistinct hfacts
  have hfolddirs : (s.backups.foldl (restoreEntry o) fs2).dirs = fs2.dirs :=
    restoreFold_dirs o s.backups fs2
  have hpexsd : (s.backups.foldl (restoreEntry o) fs2).pexists
      (sessionDir root now) = true := by
    unfold Fs.pexists
    have hd : (s.backups.foldl (restoreEntry o) fs2).isDir (sessionDir root now) = true := by
      show (s.backups.foldl (restoreEntry o) fs2).dirs.contains (sessionDir root now) = true
      rw [hfolddirs]
      exact ca.sdDir
    rw [hd]
    simp
  have hrw : ConfigSwapper.restore o root s fs2 =
      (s.backups.foldl (restoreEntry o) fs2).rmtree (sessionDir root now) := by
    unfold ConfigSwapper.restore
    rw [ca.sid]
    dsimp only
    rw [if_pos hpexsd]
  have hR1 : ∀ p, (ConfigSwapper.restore o root s fs2).files p = fs.files p := by
    intro p
    rw [hrw]
    rcases hu : underDir (sessionDir root now) p with _ | _
    · rw [Fs.rmtree_files, if_neg (by rw [hu]; exact Bool.noConfusion)]
      by_cases hdst : ∃ e, e ∈ s.backups ∧ p = e.dst
      · rcases hdst with ⟨e, he, rfl⟩
        exact hfolddst e he
      · push_neg at hdst
        rw [restoreFold_frame_nodir o s.backups fs2 (fun e he => hdstd e he) p
          (fun e he => hdst e he)]
        exact ca.frameF p hu (fun e he => hdst e he)
    · rw [Fs.rmtree_files, if_pos hu]
      rw [hc.freshFiles p hu]
  have hR2 : (ConfigSwapper.restore o root s fs2).dirs.contains
      (sessionDir root now) = false := by
    rw [hrw]
    rcases hv : ((s.backups.foldl (restoreEntry o) fs2).rmtree
        (sessionDir root now)).dirs.contains (sessionDir root now) with _ | _
    · rfl
    · rcases (Fs.rmtree_dirs_contains _ _ _).mp hv with ⟨_, _, h3⟩
      exact absurd rfl h3
  have hR2dirs : ∀ q, (ConfigSwapper.restore o root s fs2).dirs.contains q = true →
      underDir (sessionDir root now) q = false ∧
      (s.backups.foldl (restoreEntry o) fs2).dirs.contains q = true := by
    intro q hq
    rw [hrw] at hq
    rcases (Fs.rmtree_dirs_contains _ _ _).mp hq with ⟨h1, h2, _⟩
    exact ⟨h2, h1⟩
  refine ⟨hR1, hR2, ?_⟩
  have hskip : ∀ e ∈ s.backups,
      restoreEntry o (ConfigSwapper.restore o root s fs2) e =
        ConfigSwapper.restore o root s fs2 := by
    intro e he
    rcases ca.entries e he with ⟨_, hex, _, hdeg, hbp⟩
    unfold restoreEntry
    rcases hexv : e.existed with _ | _
    · simp only [Bool.false_eq_true, if_false]
      have hpe : (ConfigSwapper.restore o root s fs2).pexists e.dst = false := by
        unfold Fs.pexists Fs.isFile
        rw [Bool.or_eq_false_iff]
        constructor
        · rw [hR1 e.dst]
          rcases hv : fs.files e.dst with _ | c
          · rfl
          · rw [hexv, hv] at hex
            exact Bool.noConfusion hex
        · rcases hv : (ConfigSwapper.restore o root s fs2).dirs.contains e.dst with _ | _
          · exact hv
          · rcases hR2dirs e.dst hv with ⟨_, h2⟩
            rw [hfolddirs] at h2
            rw [hdstd e he] at h2
            exact Bool.noConfusion h2
      rw [hpe]
      simp
    · simp only [if_true]
      rcases hdeg hexv with ⟨bp, hbpe⟩
      rw [hbpe]
      dsimp only
      have hbpu : underDir (sessionDir root now) bp = true := (hbp bp hbpe).1
      have hpe : (ConfigSwapper.restore o root s fs2).pexists bp = false := by
        unfold Fs.pexists Fs.isFile
        rw [Bool.or_eq_false_iff]
        constructor
        · rw [hR1 bp, hc.freshFiles bp hbpu]
          rfl
        · rcases hv : (ConfigSwapper.restore o root s fs2).dirs.contains bp with _ | _
          · exact hv
          · rcases hR2dirs bp hv with ⟨h1, _⟩
            rw [hbpu] at h1
            exact Bool.noConfusion h1
      rw [hpe]
      simp
  have hfold2 : s.backups.foldl (restoreEntry o) (ConfigSwapper.restore o root s fs2) =
      ConfigSwapper.restore o root s fs2 :=
    restoreFold_id o s.backups _ hskip
  show ConfigSwapper.restore o root s (ConfigSwapper.restore o root s fs2) =
    ConfigSwapper.restore o root s fs2
  set R := ConfigSwapper.restore o root s fs2 with hRdef
  unfold ConfigSwapper.restore
  rw [ca.sid]
  dsimp only
  rw [hfold2]
  rw [if_neg ?hguard]
  case hguard =>
    intro hguard
    unfold Fs.pexists Fs.isFile at hguard
    rcases Bool.or_eq_true_iff.mp hguard with h2 | h2
    · rw [hR1, hc.sdNoFile] at h2
      exact Bool.noConfusion h2
    · have h3 : R.dirs.contains (sessionDir root now) = true := h2
      rw [hR2] at h3
      exact Bool.noConfusion h3


/-! ### The backup invariant for arbitrary runs (claim C8)
No clean-configuration assumptions here: rules may share destinations and
any copy or remove may fail spontaneously.  Only the dedicated-backup-root
sanity is assumed: no enabled destination equals or lies under the session
directory, and no pre-existing directory lies under the session
directory. -/

theorem applyRules_c8 {o : Oracle} {cwd sd : String} :
    ∀ (rs : List FileRule) (idx : Nat) (g g2 : Fs) (es : List BackupEntry),
      applyRules o cwd sd idx g rs = some (g2, es) →
      (∀ r ∈ rs, r.enabled = true → underDir sd (abspath cwd r.dst) = false ∧
        abspath cwd r.dst ≠ sd) →
      (∀ q, underDir sd q = true → g.dirs.contains q = false) →
      (∀ p, underDir sd p = true → (∀ j d2, idx ≤ j → p ≠ backupPath sd j d2) →
        g2.files p = g.files p) ∧
      (∀ q, underDir sd q = true → g2.dirs.contains q = false) ∧
      (∀ e ∈ es, (e.existed = false → e.backup_path = none) ∧
        (∀ bp, e.backup_path = some bp → e.existed = true ∧
          ∃ j gj ej, bp = backupPath sd (idx + j) e.dst ∧
            applyRules o cwd sd idx g (List.take j rs) = some (gj, ej) ∧
            ∃ c, gj.files e.dst = some c ∧ g2.files bp = some c)) := by
  intro rs
  induction rs with
  | nil =>
    intro idx g g2 es h _ hB
    simp only [applyRules] at h
    cases h
    exact ⟨fun p _ _ => rfl, hB, fun e he => absurd he (List.not_mem_nil e)⟩
  | cons r rs ih =>
    intro idx g g2 es h hdst hB
    simp only [applyRules] at h
    rcases hr : applyRule o cwd sd idx g r with _ | ⟨g1, oe⟩
    · rw [hr] at h; exact Option.noConfusion h
    · rw [hr] at h
      dsimp only at h
      rcases hrec : applyRules o cwd sd (idx + 1) g1 rs with _ | ⟨g3, es3⟩
      · rw [hrec] at h; exact Option.noConfusion h
      · rw [hrec] at h
        dsimp only at h
        injection h with h2
        injection h2 with hfs hes
        subst hfs
        have hdst0 : ∀ r2 ∈ rs, r2.enabled = true →
            underDir sd (abspath cwd r2.dst) = false ∧ abspath cwd r2.dst ≠ sd :=
          fun r2 h2 hen2 => hdst r2 (List.mem_cons_of_mem r h2) hen2
        have key : (∀ p, underDir sd p = true → (∀ d2, p ≠ backupPath sd idx d2) →
              g1.files p = g.files p) ∧
            (∀ q, underDir sd q = true → g1.dirs.contains q = false) ∧
            (∀ e0, oe = some e0 →
              (e0.existed = false → e0.backup_path = none) ∧
              (∀ bp, e0.backup_path = some bp → e0.existed = true ∧
                bp = backupPath sd idx e0.dst ∧
                ∃ c, g.files e0.dst = some c ∧ g1.files bp = some c)) := by
          rcases Bool.eq_false_or_eq_true r.enabled with hen | hen
          swap
          · rw [applyRule_disabled o cwd sd idx g hen] at hr
            injection hr with hr2
            injection hr2 with hg ho
            subst hg
            exact ⟨fun p _ _ => rfl, hB, fun e0 he0 => Option.noConfusion (ho.trans he0)⟩
          · by_cases hsk : abspath cwd r.src = "" ∨ abspath cwd r.dst = "" ∨
              g.pexists (abspath cwd r.src) = false
            · rw [applyRule_skip o cwd sd idx g hen hsk] at hr
              injection hr with hr2
              injection hr2 with hg ho
              subst hg
              exact ⟨fun p _ _ => rfl, hB, fun e0 he0 => Option.noConfusion (ho.trans he0)⟩
            · rcases hmk : (if dirname (abspath cwd r.dst) ≠ "" then
                safeMkdir o g (dirname (abspath cwd r.dst)) else some g) with _ | gm
              · rw [applyRule_mkdir_none o cwd sd idx g hen hsk hmk] at hr
                exact Option.noConfusion hr
              · rw [applyRule_active o cwd sd idx g hen hsk hmk] at hr
                injection hr with hr2
                injection hr2 with hg ho
                have hgm : gm.files = g.files ∧
                    (∀ q, gm.dirs.contains q = true → g.dirs.contains q = true ∨
                      q = dirname (abspath cwd r.dst)) := by
                  by_cases hdn : dirname (abspath cwd r.dst) ≠ ""
                  · rw [if_pos hdn] at hmk
                    rcases safeMkdir_some_spec hmk with ⟨h1, _, h3⟩
                    exact ⟨h1, h3⟩
                  · rw [if_neg hdn] at hmk
                    injection hmk with hmk2
                    subst hmk2
                    exact ⟨rfl, fun q hq => Or.inl hq⟩
                have hud : underDir sd (abspath cwd r.dst) = false :=
                  (hdst r (List.mem_cons_self r rs) hen).1
                have hne_sd : abspath cwd r.dst ≠ sd :=
                  (hdst r (List.mem_cons_self r rs) hen).2
                have hBgm : ∀ q, underDir sd q = true → gm.dirs.contains q = false := by
                  intro q hq
                  rcases hv : gm.dirs.contains q with _ | _
                  · rfl
                  · exfalso
                    rcases hgm.2 q hv with h3 | h3
                    · rw [hB q hq] at h3
                      exact Bool.noConfusion h3
                    · rw [h3] at hq
                      have h4 := underDir_dirname hq
                      rw [hud] at h4
                      exact Bool.noConfusion h4
                have hbpu : underDir sd (backupPath sd idx (abspath cwd r.dst)) = true :=
                  underDir_backupPath sd idx _
                have hbpdir : gm.isDir (backupPath sd idx (abspath cwd r.dst)) = false :=
                  hBgm _ hbpu
                have hbpne : backupPath sd idx (abspath cwd r.dst) ≠ abspath cwd r.dst := by
                  intro hpe
                  rw [hpe, hud] at hbpu
                  exact Bool.noConfusion hbpu
                have hbpj : ∀ y : String, backupPath sd idx (abspath cwd r.dst) ≠
                    abspath cwd r.dst ++ "/" ++ basename y := by
                  intro y hpe
                  rw [hpe] at hbpu
                  rcases underDir_concat_slashfree (basename_no_slash y) hbpu with h3 | h3
                  · rw [hud] at h3
                    exact Bool.noConfusion h3
                  · exact hne_sd h3.symm
                rcases hex : gm.pexists (abspath cwd r.dst) with _ | _
                · -- destination not present: no backup is taken
                  rw [hex, doBackup_not_existed] at hg ho
                  dsimp only at hg ho
                  refine ⟨?_, ?_, ?_⟩
                  · intro p hup hpb
                    have h1 : p ≠ abspath cwd r.dst := by
                      intro hpe
                      rw [hpe, hud] at hup
                      exact Bool.noConfusion hup
                    have h2 : ∀ y : String, p ≠ abspath cwd r.dst ++ "/" ++ basename y := by
                      intro y hpe
                      rw [hpe] at hup
                      rcases underDir_concat_slashfree (basename_no_slash y) hup with h3 | h3
                      · rw [hud] at h3
                        exact Bool.noConfusion h3
                      · exact hne_sd h3.symm
                    rw [← hg, doSwap_files_frame o gm (abspath cwd r.src)
                      (abspath cwd r.dst) false none p h1 h2]
                    exact congrFun hgm.1 p
                  · intro q hq
                    have hd : g1.dirs = gm.dirs := by
                      rw [← hg, doSwap_dirs]
                    rw [hd]
                    exact hBgm q hq
                  · intro e0 he0
                    have he1 : (⟨abspath cwd r.dst, false, none⟩ : BackupEntry) = e0 := by
                      injection ho.trans he0 with h3
                    subst he1
                    refine ⟨fun _ => rfl, ?_⟩
                    intro bp hbp
                    exact Option.noConfusion hbp
                · -- destination present: a backup copy is attempted
                  rw [hex] at hg ho
                  rcases hbc : copy2 o gm (abspath cwd r.dst)
                      (backupPath sd idx (abspath cwd r.dst)) with _ | gc
                  · -- backup copy failed: degraded entry
                    rw [doBackup_existed_fail hbc] at hg ho
                    dsimp only at hg ho
                    refine ⟨?_, ?_, ?_⟩
                    · intro p hup hpb
                      have h1 : p ≠ abspath cwd r.dst := by
                        intro hpe
                        rw [hpe, hud] at hup
                        exact Bool.noConfusion hup
                      have h2 : ∀ y : String, p ≠ abspath cwd r.dst ++ "/" ++ basename y := by
                        intro y hpe
                        rw [hpe] at hup
                        rcases underDir_concat_slashfree (basename_no_slash y) hup with h3 | h3
                        · rw [hud] at h3
                          exact Bool.noConfusion h3
                        · exact hne_sd h3.symm
                      rw [← hg, doSwap_files_frame o gm (abspath cwd r.src)
                        (abspath cwd r.dst) true none p h1 h2]
                      exact congrFun hgm.1 p
                    · intro q hq
                      have hd : g1.dirs = gm.dirs := by
                        rw [← hg, doSwap_dirs]
                      rw [hd]
                      exact hBgm q hq
                    · intro e0 he0
                      have he1 : (⟨abspath cwd r.dst, true, none⟩ : BackupEntry) = e0 := by
                        injection ho.trans he0 with h3
                      subst he1
                      refine ⟨fun hctr => Bool.noConfusion hctr, ?_⟩
                      intro bp hbp
                      exact Option.noConfusion hbp
                  · -- backup copy succeeded
                    rw [doBackup_existed_ok hbc] at hg ho
                    dsimp only at hg ho
                    rcases copy2_some_spec_nodir hbpdir hbc with ⟨c, hcs, hgc⟩
                    refine ⟨?_, ?_, ?_⟩
                    · intro p hup hpb
                      have h1 : p ≠ abspath cwd r.dst := by
                        intro hpe
                        rw [hpe, hud] at hup
                        exact Bool.noConfusion hup
                      have h2 : ∀ y : String, p ≠ abspath cwd r.dst ++ "/" ++ basename y := by
                        intro y hpe
                        rw [hpe] at hup
                        rcases underDir_concat_slashfree (basename_no_slash y) hup with h3 | h3
                        · rw [hud] at h3
                          exact Bool.noConfusion h3
                        · exact hne_sd h3.symm
                      rw [← hg, doSwap_files_frame o gc (abspath cwd r.src)
                        (abspath cwd r.dst) true
                        (some (backupPath sd idx (abspath cwd r.dst))) p h1 h2, hgc,
                        Fs.write_files, if_neg (hpb (abspath cwd r.dst))]
                      exact congrFun hgm.1 p
                    · intro q hq
                      have hd : g1.dirs = gm.dirs := by
                        rw [← hg, doSwap_dirs, hgc]
                        rfl
                      rw [hd]
                      exact hBgm q hq
                    · intro e0 he0
                      have he1 : (⟨abspath cwd r.dst, true,
                          some (backupPath sd idx (abspath cwd r.dst))⟩ : BackupEntry) =
                          e0 := by
                        injection ho.trans he0 with h3
                      subst he1
                      refine ⟨fun hctr => Bool.noConfusion hctr, ?_⟩
                      intro bp hbp
                      injection hbp with hbp2
                      subst hbp2
                      refine ⟨rfl, rfl, c, ?_, ?_⟩
                      · rw [← congrFun hgm.1 (abspath cwd r.dst)]
                        exact hcs
                      · rw [← hg, doSwap_files_frame o gc (abspath cwd r.src)
                          (abspath cwd r.dst) true
                          (some (backupPath sd idx (abspath cwd r.dst)))
                          (backupPath sd idx (abspath cwd r.dst)) hbpne hbpj, hgc,
                          Fs.write_files, if_pos rfl]
        rcases ih (idx + 1) g1 g3 es3 hrec hdst0 key.2.1 with ⟨ihf, ihB, ihe⟩
        refine ⟨?_, ihB, ?_⟩
        · intro p hup hj
          rw [ihf p hup (fun j d2 hje => hj j d2 (by omega))]
          exact key.1 p hup (fun d2 => hj idx d2 (le_refl idx))
        · intro e he
          rcases oe with _ | e0
          · dsimp only at hes
            subst hes
            refine ⟨(ihe e he).1, ?_⟩
            intro bp hbp
            rcases (ihe e he).2 bp hbp with ⟨hext, j2, gj, ej, hbpe, hrun, c, hc1, hc2⟩
            refine ⟨hext, j2 + 1, gj, ej, ?_, ?_, c, hc1, hc2⟩
            · rw [show idx + (j2 + 1) = idx + 1 + j2 from by omega]
              exact hbpe
            · rw [List.take_succ_cons]
              simp only [applyRules, hr, hrun]
          · dsimp only at hes
            subst hes
            rcases List.mem_cons.mp he with he2 | he2
            · subst he2
              rcases key.2.2 e rfl with ⟨hnob, hsome⟩
              refine ⟨hnob, ?_⟩
              intro bp hbp
              rcases hsome bp hbp with ⟨hext, hbpe, c, hc1, hc2⟩
              refine ⟨hext, 0, g, [], hbpe, rfl, c, hc1, ?_⟩
              have hbpu2 : underDir sd bp = true := by
                rw [hbpe]
                exact underDir_backupPath sd idx _
              rw [ihf bp hbpu2 ?_]
              · exact hc2
              · intro j d2 hje hpe
                rw [hbpe] at hpe
                have := backupPath_inj_idx hpe
                omega
            · refine ⟨(ihe e he2).1, ?_⟩
              intro bp hbp
              rcases (ihe e he2).2 bp hbp with ⟨hext, j2, gj, ej, hbpe, hrun, c, hc1, hc2⟩
              refine ⟨hext, j2 + 1, gj, e0 :: ej, ?_, ?_, c, hc1, hc2⟩
              · rw [show idx + (j2 + 1) = idx + 1 + j2 from by omega]
                exact hbpe
              · rw [List.take_succ_cons]
                simp only [applyRules, hr, hrun]


/-! ### Concrete clean scenarios for the witnesses -/

theorem wfs_fresh : ∀ p, underDir (sessionDir "/b" 5) p = true → wfs.files p = none := by
  intro p h
  show (if p = "/s/a" then some "A" else if p = "/d/x" then some "X" else none) = none
  by_cases h1 : p = "/s/a"
  · rw [h1] at h
    exact absurd h (by decide)
  · by_cases h2 : p = "/d/x"
    · rw [h2] at h
      exact absurd h (by decide)
    · rw [if_neg h1, if_neg h2]

theorem wdirs_fresh : ∀ p, underDir (sessionDir "/b" 5) p = true →
    (["/h", "/s", "/d"] : List String).contains p = false := by
  intro p h
  by_cases h1 : p = "/h"
  · rw [h1] at h
    exact absurd h (by decide)
  · by_cases h2 : p = "/s"
    · rw [h2] at h
      exact absurd h (by decide)
    · by_cases h3 : p = "/d"
      · rw [h3] at h
        exact absurd h (by decide)
      · simp [List.contains_cons, h1, h2, h3]

theorem wClean : Clean allOk "/h" "/b" 5 wfs wrules := by
  refine ⟨fun p => rfl, fun p => rfl, fun a b h => absurd h (by exact Bool.noConfusion),
    wfs_fresh, fun p h => wdirs_fresh p h,
    ?_, ?_, ?_, ?_, ?_, ?_, ?_, ?_, ?_, ?_, ?_, ?_, ?_, ?_⟩ <;> decide

theorem aClean : Clean allOk "/h" "/b" 5 absFs wrules := by
  refine ⟨fun p => rfl, fun p => rfl, fun a b h => absurd h (by exact Bool.noConfusion),
    ?_, fun p h => wdirs_fresh p h,
    ?_, ?_, ?_, ?_, ?_, ?_, ?_, ?_, ?_, ?_, ?_, ?_, ?_, ?_⟩
  · intro p h
    show (if p = "/s/a" then some "A" else if p = "/s/b" then some "B" else none) = none
    by_cases h1 : p = "/s/a"
    · rw [h1] at h
      exact absurd h (by decide)
    · by_cases h2 : p = "/s/b"
      · rw [h2] at h
        exact absurd h (by decide)
      · rw [if_neg h1, if_neg h2]
  all_goals decide


theorem pairwise_filter_count :
    ∀ (l : List BackupEntry), l.Pairwise (fun a b => a.dst ≠ b.dst) →
      ∀ e ∈ l, (l.filter (fun e2 => e2.dst == e.dst)).length = 1 := by
  intro l
  induction l with
  | nil => intro _ e he; exact absurd he (List.not_mem_nil e)
  | cons e0 l ih =>
    intro hpw e he
    rcases List.pairwise_cons.mp hpw with ⟨hhead, htail⟩
    rcases List.mem_cons.mp he with he2 | he2
    · rw [he2]
      have hnone : l.filter (fun e2 => e2.dst == e0.dst) = [] := by
        rw [List.filter_eq_nil_iff]
        intro e2 he3
        simp only [beq_iff_eq]
        exact fun heq => (hhead e2 he3) heq.symm
      rw [List.filter_cons]
      simp only [beq_self_eq_true, if_true, hnone]
      rfl
    · rw [List.filter_cons]
      have hne : (e0.dst == e.dst) = false := by
        simp only [beq_eq_false_iff_ne, ne_eq]
        exact hhead e he2
      simp only [hne, Bool.false_eq_true, if_false]
      exact ih htail e he2


theorem dupdirs_fresh : ∀ p, underDir (sessionDir "/b" 7) p = true →
    dupFs.dirs.contains p = false := by
  intro p h
  show (["/h", "/s", "/d"] : List String).contains p = false
  by_cases h1 : p = "/h"
  · rw [h1] at h
    exact absurd h (by decide)
  · by_cases h2 : p = "/s"
    · rw [h2] at h
      exact absurd h (by decide)
    · by_cases h3 : p = "/d"
      · rw [h3] at h
        exact absurd h (by decide)
      · simp [List.contains_cons, h1, h2, h3]

theorem wApplied_eq :
    ConfigSwapper.apply allOk "/h" "/b" 5 wfs wrules = some (wApplied.1, wApplied.2) := rfl

theorem dupApplied_eq :
    ConfigSwapper.apply allOk "/h" "/b" 7 dupFs dupRules =
      some (dupApplied.1, dupApplied.2) := rfl

theorem aApplied_eq :
    ConfigSwapper.apply allOk "/h" "/b" 5 absFs wrules = some (aApplied.1, aApplied.2) := rfl

/-! ### The claims -/

/-- C1 (counterexample): with two enabled rules sharing the destination
`/d/x` (which exists with contents `"X"` and no copy fails), the restore
after apply leaves `/d/x` holding `"A"` — the first rule's source — not its
pre-apply contents `"X"`.  The second entry's backup (taken after the first
rule already overwrote the destination) is copied back last and wins. -/
theorem c1_roundtrip_counterexample :
    dupRestored.files "/d/x" = some "A" ∧ dupFs.files "/d/x" = some "X" ∧
    (ConfigSwapper.apply allOk "/h" "/b" 7 dupFs dupRules).isSome = true := by
  refine ⟨by decide, by decide, by decide⟩

/-- C1 (amended): for rule sets whose enabled destinations are pairwise
distinct (with a dedicated fresh backup root, no rule copying a path onto
itself or into another rule's parent directory, and no OS failures), if
every destination exists before apply and no per-file copy fails, then
restore of the session returned by apply leaves every rule's destination
byte-identical to its pre-apply contents. -/
theorem c1_roundtrip {o : Oracle} {cwd root : String} {now : Nat} {fs : Fs}
    {rules : List FileRule} (hc : Clean o cwd root now fs rules)
    (hex : ∀ r ∈ rules, r.enabled = true →
      (fs.files (abspath cwd r.dst)).isSome = true)
    (hnofail : ∀ a b, o.copyFail a b = false)
    {fs2 : Fs} {s : SwapSession}
    (happ : ConfigSwapper.apply o cwd root now fs rules = some (fs2, s)) :
    ∀ r ∈ rules, (ConfigSwapper.restore o root s fs2).files (abspath cwd r.dst) =
      fs.files (abspath cwd r.dst) := by
  rcases apply_clean_spec hc with ⟨fs3, s3, happ2, ca⟩
  rw [happ] at happ2
  injection happ2 with h2
  injection h2 with hfs hs
  subst hfs
  subst hs
  intro r hr
  exact (restore_clean hc ca).1 (abspath cwd r.dst)

/-- C1 (witness): the amended round-trip at the concrete one-rule clean
scenario; `/d/x` is back to `"X"` after restore. -/
theorem c1_roundtrip_witness :
    (ConfigSwapper.restore allOk "/b" wApplied.2 wApplied.1).files
      (abspath "/h" wrule.dst) = wfs.files (abspath "/h" wrule.dst) :=
  c1_roundtrip wClean (by decide) (fun a b => rfl) wApplied_eq wrule (by decide)

/-- C2 (counterexample): with two enabled rules sharing destination `/d/x`,
the session returned by apply records two `BackupEntry` values for that one
touched destination (and restore does not return it to its pre-apply
contents), contradicting "exactly one BackupEntry". -/
theorem c2_exactly_one_counterexample :
    (dupApplied.2.backups.filter (fun e2 => e2.dst == "/d/x")).length = 2 ∧
    dupRestored.files "/d/x" ≠ dupFs.files "/d/x" := by
  refine ⟨by decide, by decide⟩

/-- C2 (amended): under a clean configuration (pairwise-distinct enabled
destinations, dedicated fresh backup root, OS failures injected at most for
the overwrite copies of rules), every touched destination has exactly one
BackupEntry in the returned session, and restoring the session returns the
whole filesystem to its pre-apply contents — regardless of how many
overwrite copies failed. -/
theorem c2_undo_entries {o : Oracle} {cwd root : String} {now : Nat} {fs : Fs}
    {rules : List FileRule} (hc : Clean o cwd root now fs rules)
    {fs2 : Fs} {s : SwapSession}
    (happ : ConfigSwapper.apply o cwd root now fs rules = some (fs2, s)) :
    (∀ e ∈ s.backups, (s.backups.filter (fun e2 => e2.dst == e.dst)).length = 1) ∧
    (∀ p, (ConfigSwapper.restore o root s fs2).files p = fs.files p) := by
  rcases apply_clean_spec hc with ⟨fs3, s3, happ2, ca⟩
  rw [happ] at happ2
  injection happ2 with h2
  injection h2 with hfs hs
  subst hfs
  subst hs
  exact ⟨pairwise_filter_count s.backups ca.entriesDistinct, (restore_clean hc ca).1⟩

/-- C2 (witness): the amended statement at the concrete one-rule clean
scenario, specialised to the single recorded entry and to `/d/x`. -/
theorem c2_undo_entries_witness :
    (wApplied.2.backups.filter
      (fun e2 => e2.dst == "/d/x")).length = 1 ∧
    (ConfigSwapper.restore allOk "/b" wApplied.2 wApplied.1).files "/d/x" =
      wfs.files "/d/x" := by
  have h := c2_undo_entries wClean wApplied_eq
  exact ⟨h.1 ⟨"/d/x", true, some (backupPath (sessionDir "/b" 5) 0 "/d/x")⟩ (by decide),
    h.2 "/d/x"⟩

/-- C3 (counterexample): a permission error from `os.makedirs` on a
destination's parent directory (`/p`) propagates out of `apply` — the call
raises instead of returning a session, because `_safe_mkdir` has no
`try/except`. -/
theorem c3_no_crash_counterexample :
    ConfigSwapper.apply mkdirFailOracle "/h" "/b" 13 wfs
      [⟨"/s/a", "/p/x", true⟩] = none := rfl

/-- C3 (amended): `apply` returns normally — a session is always produced —
for any combination of missing files and copy or remove failures on
individual rules, provided every `os.makedirs` call succeeds: no makedirs
failure is injected, no session-directory or destination-parent path is
occupied by a regular file, and no enabled destination aliases a directory
(a `shutil.copy2` onto a directory destination would create a file inside
it, which a later `os.makedirs` call could hit and raise on).  `restore`
never raises unconditionally: its model is a total function. -/
theorem c3_apply_returns {o : Oracle} {cwd root : String} {now : Nat} {fs : Fs}
    {rules : List FileRule} (hms : MkdirSafe o cwd root now fs rules) :
    (ConfigSwapper.apply o cwd root now fs rules).isSome = true :=
  apply_isSome_of_mkdirSafe hms

/-- C3 (witness): apply completes even under an oracle that makes every
single `shutil.copy2` raise. -/
theorem c3_apply_returns_witness :
    (ConfigSwapper.apply copyFailOracle "/h" "/b" 5 wfs wrules).isSome = true :=
  c3_apply_returns ⟨fun p => rfl, by decide, by decide, by decide, by decide,
    by decide, by decide, by decide⟩

/-- C4 (code bug): a rule with an empty source path is not skipped.
`os.path.abspath("")` returns the working directory, which exists, so the
`if not src` check (performed after `abspath`) never fires and the
existence check sees the working directory; the rule therefore produces a
BackupEntry (its copy fails because the source is a directory), and the
entry is visible to restore.  Here `apply` on the single rule
`{src: "", dst: "/t/x", enabled: true}` returns one entry, not zero. -/
theorem c4_empty_src_not_skipped :
    (ConfigSwapper.apply allOk "/h" "/b" 11 wfs [⟨"", "/t/x", true⟩]).isSome = true ∧
    ((ConfigSwapper.apply allOk "/h" "/b" 11 wfs
      [⟨"", "/t/x", true⟩]).getD fsDefault).2.backups =
      [⟨"/t/x", false, none⟩] := by
  refine ⟨by decide, by decide⟩

/-- C5 (counterexample): spawn failure after an apply of two rules sharing
destination `/d/x` does run restore, but the touched destination is left
with contents `"A"`, not its pre-apply contents `"X"` — so "every touched
destination is reverted" fails as stated. -/
theorem c5_spawn_cleanup_counterexample :
    (LaunchPipeline.launch_with_session allOk true "/h" "/b" 7 dupFs "/g/game.exe"
      dupRules).spawnFs = some dupRestored ∧
    dupRestored.files "/d/x" = some "A" ∧ dupFs.files "/d/x" = some "X" := by
  refine ⟨by rfl, by decide, by decide⟩

/-- C5 (amended): under a clean configuration, if spawning fails then
`launch_with_session` returns the spawn-failure outcome carrying the
filesystem produced by restoring the session it had applied: every file is
back to its pre-launch contents and the session's backup-storage directory
no longer exists. -/
theorem c5_spawn_cleanup {o : Oracle} {cwd root : String} {now : Nat} {fs : Fs}
    {rules : List FileRule} (hc : Clean o cwd root now fs rules) {exe : String}
    (hexe : pyStrip exe ≠ "") :
    ∃ fs3, LaunchPipeline.launch_with_session o true cwd root now fs exe rules =
        .spawnFailed fs3 ∧
      (∀ p, fs3.files p = fs.files p) ∧
      fs3.dirs.contains (sessionDir root now) = false ∧
      (∀ p, underDir (sessionDir root now) p = true → fs3.files p = none) := by
  rcases apply_clean_spec hc with ⟨fs2, s, happ, ca⟩
  rcases restore_clean hc ca with ⟨hR1, hR2, _⟩
  refine ⟨ConfigSwapper.restore o root s fs2, ?_, hR1, hR2, ?_⟩
  · unfold LaunchPipeline.launch_with_session
    rw [if_neg hexe, happ]
    rfl
  · intro p hu
    rw [hR1 p]
    exact hc.freshFiles p hu

/-- C5 (witness): the amended spawn-failure cleanup at the concrete
one-rule clean scenario: the outcome is a spawn failure carrying the
restored filesystem, `/d/x` is back to `"X"`, and the session directory
`/b/5` is gone. -/
theorem c5_spawn_cleanup_witness :
    (LaunchPipeline.launch_with_session allOk true "/h" "/b" 5 wfs "/g/game.exe"
      wrules).spawnFs = some wRestored ∧
    wRestored.files "/d/x" = wfs.files "/d/x" ∧
    wRestored.dirs.contains (sessionDir "/b" 5) = false := by
  rcases c5_spawn_cleanup wClean (show pyStrip "/g/game.exe" ≠ "" by decide) with
    ⟨fs3, heq, hfiles, hdirs, _⟩
  have h0 : LaunchPipeline.launch_with_session allOk true "/h" "/b" 5 wfs "/g/game.exe"
      wrules = LaunchOutcome.spawnFailed wRestored := rfl
  rw [h0] at heq
  injection heq with heq2
  rw [← heq2] at hfiles hdirs
  exact ⟨rfl, hfiles "/d/x", hdirs⟩

/-- C6 (counterexample): two `apply` calls in the same millisecond (same
`int(time.time() * 1000)`) return sessions with the same identifier — here
two different calls both get session id 5, so identifiers are not distinct
for "any two calls". -/
theorem c6_isolation_counterexample :
    (ConfigSwapper.apply allOk "/h" "/b" 5 wfs wrules).map
      (fun v => v.2.session_id) = some 5 ∧
    (ConfigSwapper.apply allOk "/h" "/b" 5 absFs dupRules).map
      (fun v => v.2.session_id) = some 5 := by
  refine ⟨by decide, by decide⟩

/-- C6 (amended): two `apply` calls at distinct millisecond timestamps get
distinct session identifiers and disjoint backup-storage subdirectories,
and restoring the second session touches nothing under the first session's
directory (its destinations lying outside — and not equal to — that
directory), so the sessions can be restored independently in either
order. -/
theorem c6_session_isolation {o1 o2 : Oracle} {cwd1 cwd2 root : String}
    {now1 now2 : Nat} {fsA fsB f1 f2 : Fs} {rules1 rules2 : List FileRule}
    {s1 s2 : SwapSession} (hnow : now1 ≠ now2)
    (happ1 : ConfigSwapper.apply o1 cwd1 root now1 fsA rules1 = some (f1, s1))
    (happ2 : ConfigSwapper.apply o2 cwd2 root now2 fsB rules2 = some (f2, s2))
    (hdsts : ∀ e ∈ s2.backups, underDir (sessionDir root now1) e.dst = false ∧
      e.dst ≠ sessionDir root now1)
    (fsX : Fs) :
    s1.session_id ≠ s2.session_id ∧
    (∀ p, underDir (sessionDir root now1) p = true →
      underDir (sessionDir root now2) p = false) ∧
    (∀ p, underDir (sessionDir root now1) p = true →
      (ConfigSwapper.restore o2 root s2 fsX).files p = fsX.files p) := by
  have hs1 := (apply_some_spec happ1).1
  have hs2 := (apply_some_spec happ2).1
  refine ⟨by rw [hs1, hs2]; exact hnow, fun p hp => sessionDir_disjoint hnow hp, ?_⟩
  intro p hp
  apply restore_frame
  · intro e he
    constructor
    · intro heq
      rw [heq, (hdsts e he).1] at hp
      exact Bool.noConfusion hp
    · intro bp _ heq
      rw [heq] at hp
      rcases underDir_concat_slashfree (basename_no_slash bp) hp with h2 | h2
      · rw [(hdsts e he).1] at h2
        exact Bool.noConfusion h2
      · exact (hdsts e he).2 h2.symm
  · rw [hs2]
    exact sessionDir_disjoint hnow hp

/-- C6 (witness): the amended isolation at two concrete applies with
timestamps 5 and 6: the ids differ and restoring the second session leaves
the first session's backup file `/b/5/0__x` untouched. -/
theorem c6_session_isolation_witness :
    wApplied.2.session_id ≠
      ((ConfigSwapper.apply allOk "/h" "/b" 6 absFs wrules).getD fsDefault).2.session_id ∧
    (ConfigSwapper.restore allOk "/b"
      ((ConfigSwapper.apply allOk "/h" "/b" 6 absFs wrules).getD fsDefault).2
      wApplied.1).files "/b/5/0__x" = wApplied.1.files "/b/5/0__x" := by
  rcases c6_session_isolation (by decide)
    (rfl : ConfigSwapper.apply allOk "/h" "/b" 5 wfs wrules = some (wApplied.1, wApplied.2))
    (rfl : ConfigSwapper.apply allOk "/h" "/b" 6 absFs wrules =
      some (((ConfigSwapper.apply allOk "/h" "/b" 6 absFs wrules).getD fsDefault).1,
        ((ConfigSwapper.apply allOk "/h" "/b" 6 absFs wrules).getD fsDefault).2))
    (by decide) wApplied.1 with ⟨h1, _, h3⟩
  exact ⟨h1, h3 "/b/5/0__x" (by decide)⟩

/-- C7 (counterexample): two enabled rules share the destination `/d/x`,
which does not exist beforehand; both copies succeed, yet after restore the
destination still exists (with the first source's contents) — the second
entry's backup recreates it after the first entry deleted it. -/
theorem c7_creation_undo_counterexample :
    absFs.files "/d/x" = none ∧ absRestored.files "/d/x" = some "A" := by
  refine ⟨by decide, by decide⟩

/-- C7 (amended): under a clean configuration, an enabled rule whose source
exists (and is no rule's destination), whose destination does not exist
before apply, and whose overwrite copy is not failed by the oracle, leaves
the destination holding the source's contents after apply, and after
restore the destination no longer exists. -/
theorem c7_creation_undo {o : Oracle} {cwd root : String} {now : Nat} {fs : Fs}
    {rules : List FileRule} (hc : Clean o cwd root now fs rules)
    {r : FileRule} (hr : r ∈ rules) (hen : r.enabled = true)
    (hsrc : (fs.files (abspath cwd r.src)).isSome = true)
    (hnd : ∀ r2 ∈ rules, r2.enabled = true → abspath cwd r.src ≠ abspath cwd r2.dst)
    (habs : fs.files (abspath cwd r.dst) = none)
    (hcf : o.copyFail (abspath cwd r.src) (abspath cwd r.dst) = false)
    {fs2 : Fs} {s : SwapSession}
    (happ : ConfigSwapper.apply o cwd root now fs rules = some (fs2, s)) :
    fs2.files (abspath cwd r.dst) = fs.files (abspath cwd r.src) ∧
    (ConfigSwapper.restore o root s fs2).files (abspath cwd r.dst) = none := by
  rcases apply_clean_spec hc with ⟨fs3, s3, happ2, ca⟩
  rw [happ] at happ2
  injection happ2 with h2
  injection h2 with hfs hs
  subst hfs
  subst hs
  refine ⟨ca.content r hr hen hsrc hnd hcf, ?_⟩
  rw [(restore_clean hc ca).1 (abspath cwd r.dst)]
  exact habs

/-- C7 (witness): the amended creation-undo on the concrete scenario where
`/d/x` does not exist: after apply it holds the source's contents, after
restore it is gone. -/
theorem c7_creation_undo_witness :
    aApplied.1.files (abspath "/h" wrule.dst) = absFs.files (abspath "/h" wrule.src) ∧
    (ConfigSwapper.restore allOk "/b" aApplied.2 aApplied.1).files
      (abspath "/h" wrule.dst) = none :=
  c7_creation_undo aClean (List.mem_cons_self wrule []) (by decide) (by decide)
    (by decide) (by decide) rfl aApplied_eq

/-- C8 (confirmed): every BackupEntry produced by apply — for any rule set
(duplicate destinations included) and any combination of missing files and
injected copy or remove failures, assuming only a dedicated backup root (no
enabled destination equals or lies under the session directory, and no
pre-existing directory lies under it) — satisfies the backup invariant:
when `existed` is false, `backup_path` is always absent; and whenever
`backup_path` is set (the backup copy succeeded), `existed` is true and at
the end of apply the file at `backup_path` is a byte-exact copy of the
destination's pre-swap content: its content at the moment the entry's rule
was processed, exhibited by the partial run of apply over the first `k`
rules. -/
theorem c8_backup_invariant {o : Oracle} {cwd root : String} {now : Nat} {fs fs2 : Fs}
    {rules : List FileRule} {s : SwapSession}
    (hdst : ∀ r ∈ rules, r.enabled = true →
      underDir (sessionDir root now) (abspath cwd r.dst) = false ∧
      abspath cwd r.dst ≠ sessionDir root now)
    (hfresh : ∀ q, underDir (sessionDir root now) q = true →
      fs.dirs.contains q = false)
    (happ : ConfigSwapper.apply o cwd root now fs rules = some (fs2, s)) :
    ∀ e ∈ s.backups,
      (e.existed = false → e.backup_path = none) ∧
      (∀ bp, e.backup_path = some bp → e.existed = true ∧
        underDir (sessionDir root now) bp = true ∧
        ∃ k gk ek, bp = backupPath (sessionDir root now) k e.dst ∧
          applyPrefix o cwd root now fs k rules = some (gk, ek) ∧
          ∃ c, gk.files e.dst = some c ∧ fs2.files bp = some c) := by
  rcases apply_some_spec happ with ⟨_, fs1, hmk, hrules⟩
  have hB1 : ∀ q, underDir (sessionDir root now) q = true →
      fs1.dirs.contains q = false := by
    intro q hq
    rcases hv : fs1.dirs.contains q with _ | _
    · rfl
    · exfalso
      rcases (safeMkdir_some_spec hmk).2.2 q hv with h3 | h3
      · rw [hfresh q hq] at h3
        exact Bool.noConfusion h3
      · exact (ne_of_underDir hq) h3
  rcases applyRules_c8 rules 0 fs1 fs2 s.backups hrules hdst hB1 with ⟨_, _, hent⟩
  intro e he
  refine ⟨(hent e he).1, ?_⟩
  intro bp hbp
  rcases (hent e he).2 bp hbp with ⟨hext, j, gj, ej, hbpe, hrun, c, hc1, hc2⟩
  rw [Nat.zero_add] at hbpe
  refine ⟨hext, ?_, j, gj, ej, hbpe, ?_, c, hc1, hc2⟩
  · rw [hbpe]
    exact underDir_backupPath _ _ _
  · unfold applyPrefix
    rw [hmk]
    exact hrun

/-- C8 (witness): the invariant at the two-rule scenario in which both
rules overwrite `/d/x`: the second rule's backup `/b/7/1__x` holds `"A"` —
the content `/d/x` had when rule 1 was processed (rule 0 had already
overwritten the original `"X"` with `"A"`) — exercising the rule-relative
reading of "pre-swap content". -/
theorem c8_backup_invariant_witness :
    dupApplied.1.files (backupPath (sessionDir "/b" 7) 1 "/d/x") = some "A" := by
  rcases (c8_backup_invariant (by decide) dupdirs_fresh dupApplied_eq
      ⟨"/d/x", true, some (backupPath (sessionDir "/b" 7) 1 "/d/x")⟩
      (by decide)).2 (backupPath (sessionDir "/b" 7) 1 "/d/x") rfl with
    ⟨_, _, k, gk, ek, hbpe, hrun, c, hc1, hc2⟩
  have hk := backupPath_inj_idx hbpe
  subst hk
  have hobs : (applyPrefix allOk "/h" "/b" 7 dupFs 1 dupRules).map
      (fun v => v.1.files "/d/x") = some (some "A") := by decide
  rw [hrun] at hobs
  have hobs2 : some (gk.files "/d/x") = some (some "A") := hobs
  injection hobs2 with hobs3
  rw [hc1] at hobs3
  injection hobs3 with hc4
  rw [hc2, hc4]

/-- C9 (counterexample): with two enabled rules sharing the (initially
absent) destination `/d/x`, the first restore leaves `/d/x` present with
contents `"A"`, and a second restore of the same session deletes it — the
second restore modifies the filesystem, so restore is not idempotent. -/
theorem c9_idempotent_counterexample :
    absRestored.files "/d/x" = some "A" ∧ absRestored2.files "/d/x" = none := by
  refine ⟨by decide, by decide⟩

/-- C9 (amended): under a clean configuration, restore is idempotent: a
second restore of the session immediately after the first performs no
filesystem modification at all (it returns the same filesystem value), all
backup files and the session directory being gone and every entry's
copy-back and delete branches being skipped. -/
theorem c9_restore_idempotent {o : Oracle} {cwd root : String} {now : Nat} {fs : Fs}
    {rules : List FileRule} (hc : Clean o cwd root now fs rules)
    {fs2 : Fs} {s : SwapSession}
    (happ : ConfigSwapper.apply o cwd root now fs rules = some (fs2, s)) :
    ConfigSwapper.restore o root s (ConfigSwapper.restore o root s fs2) =
      ConfigSwapper.restore o root s fs2 := by
  rcases apply_clean_spec hc with ⟨fs3, s3, happ2, ca⟩
  rw [happ] at happ2
  injection happ2 with h2
  injection h2 with hfs hs
  subst hfs
  subst hs
  exact (restore_clean hc ca).2.2

/-- C9 (witness): idempotence at the concrete one-rule scenario. -/
theorem c9_restore_idempotent_witness :
    ConfigSwapper.restore allOk "/b" wApplied.2 wRestored = wRestored :=
  c9_restore_idempotent wClean wApplied_eq

/-- C10 (counterexample): `apply` writes outside the claimed frame.  With
one enabled rule whose destination `/d` is an existing directory,
`shutil.copy2` copies into it, creating `/d/a` — a path that is neither a
recorded entry's destination (the single entry records `/d`) nor inside
the session's backup-storage directory — where no file existed before. -/
theorem c10_frame_counterexample :
    (ConfigSwapper.apply allOk "/h" "/b" 13 dirDstFs [dirDstRule]).map
      (fun v => (v.1.files "/d/a", v.2.backups.map (fun e => e.dst))) =
      some (some "A", ["/d"]) ∧
    dirDstFs.files "/d/a" = none ∧
    underDir (sessionDir "/b" 13) "/d/a" = false := by
  refine ⟨by decide, by decide, by decide⟩

/-- C10 (amended): provided no enabled rule's destination aliases a
directory (it is not a pre-existing directory, not the session's backup
directory, and not the parent-directory path of any enabled destination —
so the run cannot turn it into a directory either), apply writes only to
the destinations it recorded in the returned session and to files inside
the session's backup-storage directory; every other file — in particular
every rule's source, unless that path is also some recorded destination —
has unchanged contents. -/
theorem c10_apply_frame {o : Oracle} {cwd root : String} {now : Nat} {fs fs2 : Fs}
    {rules : List FileRule} {s : SwapSession}
    (happ : ConfigSwapper.apply o cwd root now fs rules = some (fs2, s))
    (hnd : ∀ r ∈ rules, r.enabled = true →
      fs.dirs.contains (abspath cwd r.dst) = false ∧
      abspath cwd r.dst ≠ sessionDir root now)
    (hpair : ∀ r ∈ rules, r.enabled = true → ∀ r2 ∈ rules, r2.enabled = true →
      abspath cwd r.dst ≠ dirname (abspath cwd r2.dst))
    (p : String)
    (hp : ∀ e ∈ s.backups, p ≠ e.dst)
    (hu : underDir (sessionDir root now) p = false) :
    fs2.files p = fs.files p :=
  apply_frame happ hnd hpair p hu hp

/-- C10 (witness): the amended frame property at the concrete scenario: the
source file `/s/a` is untouched by apply. -/
theorem c10_apply_frame_witness :
    wApplied.1.files "/s/a" = wfs.files "/s/a" :=
  c10_apply_frame wApplied_eq (by decide) (by decide) "/s/a" (by decide) (by decide)

end KLG
